import Mathlib

/-!
# Log-usage audit: aggregation and prorated ceiling

A shallow embedding of `main.go`:

* `getLogUsageByResourceForProject` — the aggregation of the fetched time series into
  a `map[string]uint64` holding one entry per resource type plus the reserved key `"TOTAL"`;
* `getTargetLogIngestionValueForCurrentDay` — the prorated byte ceiling, computed in
  `float64` arithmetic and truncated to `uint64`;
* the per-project body of the loop of `main`.

Go maps are association lists with unique keys, `uint64` values are naturals reduced
modulo `2 ^ 64`, pointers are `Option`s and a run-time panic is an `Except` error.
-/

namespace LogUsage

-- Results of fallible code are compared by evaluation.
deriving instance DecidableEq for Except

/-! ## Go maps -/

/-- A Go `map[string]uint64`: an association list holding each key at most once. -/
abbrev GoMap := List (String × Nat)

/-- The two-valued map read `v, ok := m[k]`. -/
def GoMap.lookup (m : GoMap) (k : String) : Option Nat :=
  match m with
  | [] => none
  | (k', v) :: rest => if k' = k then some v else GoMap.lookup rest k

/-- The map write `m[k] = v`: replaces the value of an existing key, adds a new key otherwise. -/
def GoMap.store (m : GoMap) (k : String) (v : Nat) : GoMap :=
  match m with
  | [] => [(k, v)]
  | (k', v') :: rest => if k' = k then (k, v) :: rest else (k', v') :: GoMap.store rest k v

/-- The one-valued map read `m[k]`, which yields the zero value for an absent key. -/
def GoMap.read (m : GoMap) (k : String) : Nat :=
  (GoMap.lookup m k).getD 0

/-- The one-valued read of a `map[string]string`, which yields `""` for an absent key. -/
def labelOf (labels : List (String × String)) (k : String) : String :=
  match labels with
  | [] => ""
  | (k', v) :: rest => if k' = k then v else labelOf rest k

/-! ## The monitoring API types -/

/-- Modelled from the spec: the type `monitoring.MonitoredResource` of the Cloud Monitoring
client library, which is not part of the repository; only its `Labels` map is read. -/
structure MonitoredResource where
  Labels : List (String × String)
deriving DecidableEq, Repr

/-- Modelled from the spec: the type `monitoring.Metric` of the Cloud Monitoring client
library, which is not part of the repository; only its `Labels` map is read. -/
structure Metric where
  Labels : List (String × String)
deriving DecidableEq, Repr

/-- Modelled from the spec: the type `monitoring.TypedValue` of the client library;
`Int64Value` is a `*int64`, absent when the point carries another kind of value. -/
structure TypedValue where
  Int64Value : Option Int
deriving DecidableEq, Repr

/-- Modelled from the spec: the type `monitoring.Point` of the client library; `Value` is a
pointer. -/
structure Point where
  Value : Option TypedValue
deriving DecidableEq, Repr

/-- Modelled from the spec: the type `monitoring.TimeSeries` of the client library; `Metric`
and `Resource` are pointers and `Points` is a slice of pointers. -/
structure TimeSeries where
  Metric : Option Metric
  Points : List (Option Point)
  Resource : Option MonitoredResource
deriving DecidableEq, Repr

/-- The run-time panics the aggregation loop can raise. -/
inductive Panic where
  | nilDereference
  | indexOutOfRange
deriving DecidableEq, Repr

/-- The ways `getLogUsageByResourceForProject` can fail to return a map: the error of the
API call, which it returns, or a panic of the loop. -/
inductive Failure where
  | apiError (msg : String)
  | panic (p : Panic)
deriving DecidableEq, Repr

/-- Modelled from the spec: the `*monitoring.Service` collaborator; for a project id it gives
what `service.Projects.TimeSeries.List(...).Do()` returns, an error or the slice
`response.TimeSeries` of `*TimeSeries`. -/
abbrev MonitoringService := String → Except String (List (Option TimeSeries))

/-! ## The aggregation -/

/-- The conversion `uint64(x)` of an `int64`. -/
def uint64OfInt64 (x : Int) : Nat :=
  (x % 2 ^ 64).toNat

/-- The body of the loop over `response.TimeSeries` (lines 92-110), on the state made of the
map `logs` and the counter `totalBytes`. -/
def loopBody (projectId : String) (st : GoMap × Nat) (series : Option TimeSeries) :
    Except Panic (GoMap × Nat) :=
  match series with
  | none => .error .nilDereference
  | some s =>
    match s.Resource with
    | none => .error .nilDereference
    | some resource =>
      let metricProjectId := labelOf resource.Labels "project_id"
      if metricProjectId ≠ projectId then
        .ok st
      else
        match s.Metric with
        | none => .error .nilDereference
        | some metric =>
          let resourceType := labelOf metric.Labels "resource_type"
          match s.Points with
          | [] => .error .indexOutOfRange
          | none :: _ => .error .nilDereference
          | some point :: _ =>
            match point.Value with
            | none => .error .nilDereference
            | some value =>
              match value.Int64Value with
              | none => .error .nilDereference
              | some int64Value =>
                let numBytes := uint64OfInt64 int64Value
                let logs :=
                  match GoMap.lookup st.1 resourceType with
                  | some prevBytes =>
                    GoMap.store st.1 resourceType ((numBytes + prevBytes) % 2 ^ 64)
                  | none => GoMap.store st.1 resourceType numBytes
                .ok (logs, (st.2 + numBytes) % 2 ^ 64)

/-- The loop `for _, series := range response.TimeSeries`. -/
def aggregateLoop (projectId : String) (st : GoMap × Nat) :
    List (Option TimeSeries) → Except Panic (GoMap × Nat)
  | [] => .ok st
  | series :: rest =>
    match loopBody projectId st series with
    | .error p => .error p
    | .ok st' => aggregateLoop projectId st' rest

/-- The function `getLogUsageByResourceForProject`. -/
def getLogUsageByResourceForProject (projectId : String) (service : MonitoringService) :
    Except Failure GoMap :=
  match service projectId with
  | .error err => .error (.apiError err)
  | .ok timeSeries =>
    match aggregateLoop projectId ([], 0) timeSeries with
    | .error p => .error (.panic p)
    | .ok (logs, totalBytes) => .ok (GoMap.store logs "TOTAL" totalBytes)

/-! ## The loop of `main` -/

/-- Modelled from the spec: the type `cloudresourcemanager.Project` of the client library;
only these two fields are read. -/
structure Project where
  ProjectId : String
  LifecycleState : String
deriving DecidableEq, Repr

/-- The lines `main` prints, with the arguments of their format strings. -/
inductive Line where
  | skipping (projectId state : String)
  | project (projectId : String)
  | resource (name : String) (bytes : Nat)
  | total (bytes : Nat)
  | warning (totalBytes targetBytes : Nat)
deriving DecidableEq, Repr

/-- The order in which a `range` statement visits the entries of a map. Go leaves that order
unspecified and it changes from run to run, so it is an argument of the loop: some
rearrangement of the entries. -/
structure MapOrder where
  enumerate : GoMap → GoMap
  perm : ∀ m, (enumerate m).Perm m

/-- The order in which the entries were stored, one of the orders `range` can take. -/
def MapOrder.insertion : MapOrder :=
  ⟨fun m => m, fun m => List.Perm.refl m⟩

/-- The reverse of the order in which the entries were stored, another one. -/
def MapOrder.reversed : MapOrder :=
  ⟨fun m => m.reverse, fun m => List.reverse_perm m⟩

/-- The lines the inner loop `for resource, bytes := range logs` prints for the entries in the
order it visits them: one line per entry, none for the key `"TOTAL"`. -/
def resourceLines : GoMap → List Line
  | [] => []
  | (resource, bytes) :: rest =>
    if resource = "TOTAL" then resourceLines rest
    else Line.resource resource bytes :: resourceLines rest

/-- The body of the loop of `main` for one project (lines 143-177): the lines it prints, or
the failure that ends the program. The argument `order` is the order in which the inner loop
ranges over the map. -/
def mainLoopBody (service : MonitoringService) (targetBytes : Nat) (order : MapOrder)
    (project : Project) : Except Failure (List Line) :=
  let projectId := project.ProjectId
  if project.LifecycleState ≠ "ACTIVE" then
    .ok [Line.skipping projectId project.LifecycleState]
  else
    match getLogUsageByResourceForProject projectId service with
    | .error err => .error err
    | .ok logs =>
      let totalBytes := GoMap.read logs "TOTAL"
      if totalBytes = 0 then
        .ok []
      else
        .ok ([Line.project projectId] ++ resourceLines (order.enumerate logs) ++
          [Line.total totalBytes] ++
          (if totalBytes > targetBytes then [Line.warning totalBytes targetBytes] else []))

/-! ## Calendar dates -/

/-- Modelled from the spec: the civil date of a Go `time.Time` (package `time` is not part of
the repository); `Year`, `Month` and `Day` are what the methods of these names return. -/
structure Time where
  Year : Int
  Month : Nat
  Day : Nat
deriving DecidableEq, Repr

/-- The Gregorian leap-year rule. -/
def isLeap (year : Int) : Bool :=
  year % 4 = 0 ∧ (year % 100 ≠ 0 ∨ year % 400 = 0)

/-- The number of days of a month (1 to 12) of a year. -/
def daysIn (month : Nat) (year : Int) : Nat :=
  if month = 2 then (if isLeap year then 29 else 28)
  else if month = 4 ∨ month = 6 ∨ month = 9 ∨ month = 11 then 30
  else 31

/-- A civil date: a month from 1 to 12 and a day of that month. -/
def Time.Valid (t : Time) : Prop :=
  1 ≤ t.Month ∧ t.Month ≤ 12 ∧ 1 ≤ t.Day ∧ t.Day ≤ daysIn t.Month t.Year

instance (t : Time) : Decidable t.Valid := by
  unfold Time.Valid
  infer_instance

/-- The normalisation of an out-of-range day: a day below 1 moves into the months before, a
day past the end of the month into the months after. -/
def normalizeDay : Nat → Int → Nat → Int → Time
  | 0, year, month, day => ⟨year, month, day.toNat⟩
  | fuel + 1, year, month, day =>
    if day < 1 then
      if month = 1 then normalizeDay fuel (year - 1) 12 (day + daysIn 12 (year - 1))
      else normalizeDay fuel year (month - 1) (day + daysIn (month - 1) year)
    else if (daysIn month year : Int) < day then
      if month = 12 then normalizeDay fuel (year + 1) 1 (day - daysIn 12 year)
      else normalizeDay fuel year (month + 1) (day - daysIn month year)
    else ⟨year, month, day.toNat⟩

/-- Modelled from the spec: Go's `time.Date(year, month, day, 0, 0, 0, 0, time.UTC)`, not part
of the repository. A month outside 1..12 overflows into the year and a day outside the month
is normalised, so that day 0 of a month is the last day of the month before. -/
def Date (year : Int) (month : Int) (day : Int) : Time :=
  let m := month - 1
  normalizeDay (day.natAbs + 1) (year + m.fdiv 12) ((m.fmod 12).toNat + 1) day

/-! ## Binary64 arithmetic -/

/-- A finite non-negative `float64`, the number `mant * 2 ^ exp`. -/
structure F64 where
  mant : Nat
  exp : Int
deriving DecidableEq, Repr

/-- The rational number a float stands for. -/
def F64.toRat (x : F64) : ℚ :=
  x.mant * (2 : ℚ) ^ x.exp

/-- The number of binary digits of `n`, computed with `fuel` halvings. -/
def bitLength : Nat → Nat → Nat
  | 0, _ => 0
  | fuel + 1, n => if n = 0 then 0 else bitLength fuel (n / 2) + 1

/-- The integer `k` with `2 ^ k ≤ n / d < 2 ^ (k + 1)`, for positive `n` and `d`. -/
def floorLog2Ratio (n d : Nat) : Int :=
  let k : Int := (bitLength n n : Int) - (bitLength d d : Int)
  if d * 2 ^ k.toNat ≤ n * 2 ^ (-k).toNat then k else k - 1

/-- The rounding of the positive rational `n / d` to the nearest number with a 53-bit
significand, ties going to the even significand (the IEEE 754 default rounding). -/
def roundRatio (n d : Nat) : F64 :=
  if n = 0 then ⟨0, 0⟩
  else
    let e : Int := floorLog2Ratio n d - 52
    let num := n * 2 ^ (-e).toNat
    let den := d * 2 ^ e.toNat
    let q := num / den
    let r := num % den
    let m :=
      if 2 * r < den then q
      else if den < 2 * r then q + 1
      else if q % 2 = 0 then q else q + 1
    ⟨m, e⟩

/-- The float with its exponent moved by `k`, the number `x * 2 ^ k`. -/
def F64.scale (x : F64) (k : Int) : F64 :=
  ⟨x.mant, x.exp + k⟩

/-- A rounded result, kept when it is zero or lies in the range of the normal binary64
numbers; `none` stands for every other outcome (overflow, underflow). -/
def F64.checked (x : F64) : Option F64 :=
  if x.mant = 0 ∨ (-1074 ≤ x.exp ∧ x.exp ≤ 970) then some x else none

/-- The conversion `float64(n)` of a non-negative integer below `2 ^ 64`. -/
def F64.ofNat (n : Nat) : F64 :=
  roundRatio n 1

/-- The quotient `x / y` of two floats, correctly rounded; `none` when `y` is zero. -/
def F64.div (x y : F64) : Option F64 :=
  if y.mant = 0 then none
  else F64.checked ((roundRatio x.mant y.mant).scale (x.exp - y.exp))

/-- The product `x * y` of two floats, correctly rounded. -/
def F64.mul (x y : F64) : Option F64 :=
  F64.checked ((roundRatio (x.mant * y.mant) 1).scale (x.exp + y.exp))

/-- The conversion `uint64(x)`, which truncates. When the value does not fit Go leaves the
result to the implementation; the amd64 compiler gives `2 ^ 63` then, which is what is taken
here. -/
def F64.toUint64 (x : F64) : Nat :=
  let v := x.mant * 2 ^ x.exp.toNat / 2 ^ (-x.exp).toNat
  if v < 2 ^ 64 then v else 2 ^ 63

/-! ## The prorated ceiling -/

/-- Modelled from the spec: the value `bytefmt.ToBytes("50G")` of the cap of the program,
50 GiB; package `bytefmt` is not part of the repository. -/
def maxLogIngestionPerMonth : Nat :=
  50 * 2 ^ 30

/-- The function `getTargetLogIngestionValueForCurrentDay` (lines 53-72), with the clock
reading `now` of `time.Now()` as argument; the cap is the constant of the function. The result
is `none` when a float operation leaves the range of the finite floats. -/
def getTargetLogIngestionValueForCurrentDay (now : Time) : Option Nat :=
  let maxBytesPerMonth := maxLogIngestionPerMonth
  let currentDay := now.Day
  let lastDay := (Date now.Year (now.Month + 1) 0).Day
  match F64.div (F64.ofNat currentDay) (F64.ofNat lastDay) with
  | none => none
  | some percentage =>
    match F64.mul (F64.ofNat maxBytesPerMonth) percentage with
    | none => none
    | some goalAmountOfBytes => some (F64.toUint64 goalAmountOfBytes)

/-- The float computation of lines 67-71 on given numbers `maxBytesPerMonth`, `currentDay` and
`lastDay`. -/
def ceilingAt (maxBytesPerMonth currentDay lastDay : Nat) : Option Nat :=
  match F64.div (F64.ofNat currentDay) (F64.ofNat lastDay) with
  | none => none
  | some percentage =>
    match F64.mul (F64.ofNat maxBytesPerMonth) percentage with
    | none => none
    | some goalAmountOfBytes => some (F64.toUint64 goalAmountOfBytes)

/-! ## Reading the aggregation off the input -/

/-- Whether a series matches the project: it has a resource whose label `project_id` is the
project id. -/
def matchesProject (projectId : String) (series : Option TimeSeries) : Bool :=
  match series with
  | some s =>
    match s.Resource with
    | some resource => labelOf resource.Labels "project_id" = projectId
    | none => false
  | none => false

/-- Whether a series has a resource whose label `project_id` differs from the project id. -/
def mismatchesProject (projectId : String) (series : Option TimeSeries) : Bool :=
  match series with
  | some s =>
    match s.Resource with
    | some resource => labelOf resource.Labels "project_id" ≠ projectId
    | none => false
  | none => false

/-- The label `resource_type` a series carries (`""` without a metric or without the label). -/
def resourceTypeOf (series : Option TimeSeries) : String :=
  match series with
  | some s =>
    match s.Metric with
    | some metric => labelOf metric.Labels "resource_type"
    | none => ""
  | none => ""

/-- The byte value of the first data point of a series, as a `uint64` (0 when there is none). -/
def firstPointBytes (series : Option TimeSeries) : Nat :=
  match series with
  | some s =>
    match s.Points with
    | some point :: _ =>
      match point.Value with
      | some value =>
        match value.Int64Value with
        | some int64Value => uint64OfInt64 int64Value
        | none => 0
      | none => 0
    | _ => 0
  | none => 0

/-- A series the loop can process: it is there and has a resource and, when it matches the
project, it has a metric and a first point carrying an integer value. -/
def usable (projectId : String) (series : Option TimeSeries) : Bool :=
  match series with
  | none => false
  | some s =>
    match s.Resource with
    | none => false
    | some resource =>
      if labelOf resource.Labels "project_id" ≠ projectId then true
      else
        match s.Metric, s.Points with
        | some _, some point :: _ =>
          match point.Value with
          | some value => value.Int64Value.isSome
          | none => false
        | _, _ => false

/-- The series of a list that match the project and carry the resource type `r`. -/
def seriesOf (projectId r : String) (timeSeries : List (Option TimeSeries)) :
    List (Option TimeSeries) :=
  timeSeries.filter (fun s => matchesProject projectId s && decide (resourceTypeOf s = r))

/-- The sum of the first-point byte values of a list of series. -/
def bytesOf (timeSeries : List (Option TimeSeries)) : Nat :=
  (timeSeries.map firstPointBytes).sum

/-- The sum of the values a map holds under the keys other than `"TOTAL"`. -/
def otherSum : GoMap → Nat
  | [] => 0
  | (k, v) :: rest => if k = "TOTAL" then otherSum rest else v + otherSum rest

/-- The keys of a map other than `"TOTAL"`. -/
def otherKeys : GoMap → List String
  | [] => []
  | (k, _) :: rest => if k = "TOTAL" then otherKeys rest else k :: otherKeys rest

/-- One accepted series added to the state of the loop: lines 102-110. -/
def accumulate (st : GoMap × Nat) (r : String) (numBytes : Nat) : GoMap × Nat :=
  ((match GoMap.lookup st.1 r with
    | some prevBytes => GoMap.store st.1 r ((numBytes + prevBytes) % 2 ^ 64)
    | none => GoMap.store st.1 r numBytes),
   (st.2 + numBytes) % 2 ^ 64)

/-- The state after one series the loop can process. -/
def accept (projectId : String) (st : GoMap × Nat) (s : Option TimeSeries) : GoMap × Nat :=
  if matchesProject projectId s then accumulate st (resourceTypeOf s) (firstPointBytes s) else st

/-! ## Sample inputs -/

/-- A well-formed series: one point carrying `bytes`, the labels `project_id` and
`resource_type`. -/
def sampleSeries (projectId resourceType : String) (bytes : Int) : Option TimeSeries :=
  some ⟨some ⟨[("resource_type", resourceType)]⟩, [some ⟨some ⟨some bytes⟩⟩],
    some ⟨[("project_id", projectId)]⟩⟩

/-- The samples of the scenario: 10,000,000,000 bytes of `gce` and 9,000,000,000 bytes of
`gke` for the project `p1`. -/
def scenarioSeries : List (Option TimeSeries) :=
  [sampleSeries "p1" "gce" 10000000000, sampleSeries "p1" "gke" 9000000000]

/-- A service answering every request with the samples of the scenario. -/
def scenarioService : MonitoringService :=
  fun _ => .ok scenarioSeries

/-- Samples with a series of another project that has no point, two series of one resource
type and a second point that is not added. -/
def mixedSeries : List (Option TimeSeries) :=
  [sampleSeries "p1" "gce" 7,
   some ⟨none, [], some ⟨[("project_id", "p2")]⟩⟩,
   some ⟨some ⟨[("resource_type", "gce")]⟩, [some ⟨some ⟨some 5⟩⟩, some ⟨some ⟨some 100⟩⟩],
     some ⟨[("project_id", "p1")]⟩⟩,
   sampleSeries "p1" "gke" 3]

/-- A service answering every request with `mixedSeries`. -/
def mixedService : MonitoringService :=
  fun _ => .ok mixedSeries

/-- Whether a printed line is the `[WARNING]` line. -/
def Line.isWarning : Line → Bool
  | .warning _ _ => true
  | _ => false

/-! ## Lemmas on maps -/

theorem lookup_store (m : GoMap) (k k' : String) (v : Nat) :
    GoMap.lookup (GoMap.store m k v) k' = if k = k' then some v else GoMap.lookup m k' := by
  induction m with
  | nil => simp [GoMap.store, GoMap.lookup]
  | cons e rest ih =>
    obtain ⟨a, b⟩ := e
    by_cases h : a = k
    · subst h
      by_cases h3 : a = k' <;> simp [GoMap.store, GoMap.lookup, h3]
    · by_cases h2 : k = k'
      · subst h2
        simp [GoMap.store, GoMap.lookup, h, ih]
      · simp [GoMap.store, GoMap.lookup, h, ih, h2]

theorem keys_store (m : GoMap) (k : String) (v : Nat) :
    (GoMap.store m k v).map Prod.fst =
      if (GoMap.lookup m k).isSome then m.map Prod.fst else m.map Prod.fst ++ [k] := by
  induction m with
  | nil => simp [GoMap.store, GoMap.lookup]
  | cons e rest ih =>
    obtain ⟨a, b⟩ := e
    by_cases h : a = k
    · subst h
      simp [GoMap.store, GoMap.lookup]
    · simp only [GoMap.store, GoMap.lookup, h, if_false, List.map_cons, ih]
      split <;> simp

theorem lookup_isSome_iff (m : GoMap) (k : String) :
    (GoMap.lookup m k).isSome = true ↔ k ∈ m.map Prod.fst := by
  induction m with
  | nil => simp [GoMap.lookup]
  | cons e rest ih =>
    obtain ⟨a, b⟩ := e
    by_cases h : a = k
    · subst h
      simp [GoMap.lookup]
    · have h' : ¬ k = a := fun h2 => h h2.symm
      simp [GoMap.lookup, h, h', ih]

theorem nodup_store (m : GoMap) (k : String) (v : Nat) (h : (m.map Prod.fst).Nodup) :
    ((GoMap.store m k v).map Prod.fst).Nodup := by
  rw [keys_store]
  by_cases hk : (GoMap.lookup m k).isSome = true
  · simpa [hk] using h
  · have hn : k ∉ m.map Prod.fst := fun hm => hk ((lookup_isSome_iff m k).2 hm)
    rw [if_neg hk, List.nodup_append_comm]
    exact List.nodup_cons.2 ⟨hn, h⟩

theorem otherSum_store (m : GoMap) (k : String) (v : Nat) (hk : k ≠ "TOTAL") :
    otherSum (GoMap.store m k v) + (GoMap.lookup m k).getD 0 = otherSum m + v := by
  induction m with
  | nil => simp [GoMap.store, GoMap.lookup, otherSum, hk]
  | cons e rest ih =>
    obtain ⟨a, b⟩ := e
    by_cases h : a = k
    · subst h
      simp [GoMap.store, GoMap.lookup, otherSum, hk]
      omega
    · by_cases ht : a = "TOTAL"
      · subst ht
        simp only [GoMap.store, GoMap.lookup, otherSum, h, if_false, if_true]
        exact ih
      · simp only [GoMap.store, GoMap.lookup, otherSum, h, ht, if_false]
        omega

theorem otherSum_store_total (m : GoMap) (v : Nat) :
    otherSum (GoMap.store m "TOTAL" v) = otherSum m := by
  induction m with
  | nil => simp [GoMap.store, otherSum]
  | cons e rest ih =>
    obtain ⟨a, b⟩ := e
    by_cases h : a = "TOTAL"
    · subst h
      simp [GoMap.store, otherSum]
    · simp [GoMap.store, otherSum, h, ih]

theorem otherKeys_store_total (m : GoMap) (v : Nat) :
    otherKeys (GoMap.store m "TOTAL" v) = otherKeys m := by
  induction m with
  | nil => simp [GoMap.store, otherKeys]
  | cons e rest ih =>
    obtain ⟨a, b⟩ := e
    by_cases h : a = "TOTAL"
    · subst h
      simp [GoMap.store, otherKeys]
    · simp [GoMap.store, otherKeys, h, ih]

/-! ## Lemmas on the loop -/

theorem uint64OfInt64_lt (x : Int) : uint64OfInt64 x < 2 ^ 64 := by
  unfold uint64OfInt64
  have h1 : (0 : Int) ≤ x % 2 ^ 64 := Int.emod_nonneg _ (by norm_num)
  have h2 : x % 2 ^ 64 < 2 ^ 64 := Int.emod_lt_of_pos _ (by norm_num)
  omega

theorem firstPointBytes_lt (s : Option TimeSeries) : firstPointBytes s < 2 ^ 64 := by
  unfold firstPointBytes
  split
  · split
    · split
      · split
        · exact uint64OfInt64_lt _
        · norm_num
      · norm_num
    · norm_num
  · norm_num

theorem loopBody_usable (projectId : String) (st : GoMap × Nat) (s : Option TimeSeries)
    (h : usable projectId s = true) : loopBody projectId st s = .ok (accept projectId st s) := by
  cases s with
  | none => simp [usable] at h
  | some s =>
    obtain ⟨metric, points, resource⟩ := s
    cases resource with
    | none => simp [usable] at h
    | some resource =>
      by_cases hp : labelOf resource.Labels "project_id" = projectId
      · cases metric with
        | none => simp [usable, hp] at h
        | some metric =>
          cases points with
          | nil => simp [usable, hp] at h
          | cons point rest =>
            cases point with
            | none => simp [usable, hp] at h
            | some point =>
              obtain ⟨value⟩ := point
              cases value with
              | none => simp [usable, hp] at h
              | some value =>
                obtain ⟨i⟩ := value
                cases i with
                | none => simp [usable, hp] at h
                | some i =>
                  simp [loopBody, accept, matchesProject, accumulate, resourceTypeOf,
                    firstPointBytes, hp]
      · simp [loopBody, accept, matchesProject, hp]

theorem loopBody_unusable (projectId : String) (st : GoMap × Nat) (s : Option TimeSeries)
    (h : usable projectId s = false) : ∃ p, loopBody projectId st s = .error p := by
  cases s with
  | none => exact ⟨_, rfl⟩
  | some s =>
    obtain ⟨metric, points, resource⟩ := s
    cases resource with
    | none => exact ⟨_, rfl⟩
    | some resource =>
      by_cases hp : labelOf resource.Labels "project_id" = projectId
      · cases metric with
        | none => exact ⟨.nilDereference, by simp [loopBody, hp]⟩
        | some metric =>
          cases points with
          | nil => exact ⟨.indexOutOfRange, by simp [loopBody, hp]⟩
          | cons point rest =>
            cases point with
            | none => exact ⟨.nilDereference, by simp [loopBody, hp]⟩
            | some point =>
              obtain ⟨value⟩ := point
              cases value with
              | none => exact ⟨.nilDereference, by simp [loopBody, hp]⟩
              | some value =>
                obtain ⟨i⟩ := value
                cases i with
                | none => exact ⟨.nilDereference, by simp [loopBody, hp]⟩
                | some i => simp [usable, hp] at h
      · simp [usable, hp] at h

theorem aggregateLoop_usable (projectId : String) (ts : List (Option TimeSeries))
    (st : GoMap × Nat) (h : ts.all (usable projectId) = true) :
    aggregateLoop projectId st ts = .ok (ts.foldl (accept projectId) st) := by
  induction ts generalizing st with
  | nil => rfl
  | cons s rest ih =>
    simp only [List.all_cons, Bool.and_eq_true] at h
    simp only [aggregateLoop, loopBody_usable projectId st s h.1, List.foldl_cons]
    exact ih _ h.2

theorem aggregateLoop_unusable (projectId : String) (ts : List (Option TimeSeries))
    (st : GoMap × Nat) (h : ts.all (usable projectId) = false) :
    ∃ p, aggregateLoop projectId st ts = .error p := by
  induction ts generalizing st with
  | nil => simp at h
  | cons s rest ih =>
    by_cases hs : usable projectId s = true
    · have hr : rest.all (usable projectId) = false := by
        simpa [List.all_cons, hs] using h
      obtain ⟨p, hp⟩ := ih (accept projectId st s) hr
      exact ⟨p, by simp only [aggregateLoop, loopBody_usable projectId st s hs, hp]⟩
    · have hs' : usable projectId s = false := by simpa using hs
      obtain ⟨p, hp⟩ := loopBody_unusable projectId st s hs'
      exact ⟨p, by simp only [aggregateLoop, hp]⟩

theorem aggregateLoop_ok (projectId : String) (ts : List (Option TimeSeries))
    (st st' : GoMap × Nat) (h : aggregateLoop projectId st ts = .ok st') :
    ts.all (usable projectId) = true ∧ st' = ts.foldl (accept projectId) st := by
  by_cases hu : ts.all (usable projectId) = true
  · rw [aggregateLoop_usable projectId ts st hu] at h
    exact ⟨hu, (Except.ok.inj h).symm⟩
  · have hu' : ts.all (usable projectId) = false := by simpa using hu
    obtain ⟨p, hp⟩ := aggregateLoop_unusable projectId ts st hu'
    rw [hp] at h
    cases h

theorem lookup_accumulate (st : GoMap × Nat) (r r' : String) (n : Nat) (hn : n < 2 ^ 64) :
    GoMap.lookup (accumulate st r n).1 r' =
      if r = r' then some ((n + (GoMap.lookup st.1 r).getD 0) % 2 ^ 64)
      else GoMap.lookup st.1 r' := by
  unfold accumulate
  cases hl : GoMap.lookup st.1 r with
  | none =>
    have hm : n % 18446744073709551616 = n := Nat.mod_eq_of_lt (by simpa using hn)
    simp [lookup_store, hm]
  | some prev => simp [lookup_store]

theorem otherSum_accumulate (st : GoMap × Nat) (r : String) (n : Nat) (hr : r ≠ "TOTAL") :
    otherSum (accumulate st r n).1 + (GoMap.lookup st.1 r).getD 0 =
      otherSum st.1 + (n + (GoMap.lookup st.1 r).getD 0) % 2 ^ 64 ∨
    otherSum (accumulate st r n).1 = otherSum st.1 + n := by
  unfold accumulate
  cases hl : GoMap.lookup st.1 r with
  | none =>
    right
    have := otherSum_store st.1 r n hr
    simpa [hl] using this
  | some prev =>
    left
    have := otherSum_store st.1 r ((n + prev) % 2 ^ 64) hr
    simpa [hl] using this

theorem otherSum_accumulate_modEq (st : GoMap × Nat) (r : String) (n : Nat) (hr : r ≠ "TOTAL") :
    otherSum (accumulate st r n).1 ≡ otherSum st.1 + n [MOD 2 ^ 64] := by
  rcases otherSum_accumulate st r n hr with h | h
  · have h1 : otherSum (accumulate st r n).1 + (GoMap.lookup st.1 r).getD 0 ≡
        (otherSum st.1 + n) + (GoMap.lookup st.1 r).getD 0 [MOD 2 ^ 64] := by
      rw [h, Nat.add_assoc]
      exact Nat.ModEq.add_left _ (Nat.mod_modEq _ _)
    exact Nat.ModEq.add_right_cancel' _ h1
  · rw [h]

theorem otherSum_accumulate_le (st : GoMap × Nat) (r : String) (n : Nat) (hr : r ≠ "TOTAL") :
    otherSum (accumulate st r n).1 ≤ otherSum st.1 + n := by
  rcases otherSum_accumulate st r n hr with h | h
  · have := Nat.mod_le (n + (GoMap.lookup st.1 r).getD 0) (2 ^ 64)
    omega
  · omega

theorem nodup_accumulate (st : GoMap × Nat) (r : String) (n : Nat)
    (h : (st.1.map Prod.fst).Nodup) : ((accumulate st r n).1.map Prod.fst).Nodup := by
  unfold accumulate
  cases GoMap.lookup st.1 r <;> exact nodup_store _ _ _ h

/-! ## Lemmas on the state after the loop -/

theorem accept_snd_lt (projectId : String) (st : GoMap × Nat) (s : Option TimeSeries)
    (h : st.2 < 2 ^ 64) : (accept projectId st s).2 < 2 ^ 64 := by
  unfold accept
  split
  · exact Nat.mod_lt _ (by norm_num)
  · exact h

theorem total_foldl (projectId : String) (ts : List (Option TimeSeries)) (st : GoMap × Nat)
    (h : st.2 < 2 ^ 64) :
    (ts.foldl (accept projectId) st).2 =
      (st.2 + bytesOf (ts.filter (matchesProject projectId))) % 2 ^ 64 := by
  induction ts generalizing st with
  | nil =>
    simp only [List.foldl_nil, List.filter_nil, bytesOf, List.map_nil, List.sum_nil, Nat.add_zero]
    exact (Nat.mod_eq_of_lt h).symm
  | cons s rest ih =>
    rw [List.foldl_cons, ih _ (accept_snd_lt projectId st s h)]
    by_cases hm : matchesProject projectId s = true
    · simp only [accept, hm, if_true, accumulate, List.filter_cons, bytesOf, List.map_cons,
        List.sum_cons]
      rw [Nat.mod_add_mod, Nat.add_assoc]
    · simp [accept, hm, List.filter_cons]

theorem lookup_foldl (projectId r : String) (ts : List (Option TimeSeries)) (st : GoMap × Nat) :
    GoMap.lookup (ts.foldl (accept projectId) st).1 r =
      if seriesOf projectId r ts = [] then GoMap.lookup st.1 r
      else some (((GoMap.lookup st.1 r).getD 0 + bytesOf (seriesOf projectId r ts)) % 2 ^ 64) := by
  induction ts generalizing st with
  | nil => simp [seriesOf]
  | cons s rest ih =>
    rw [List.foldl_cons, ih]
    by_cases hm : matchesProject projectId s = true
    · by_cases hr : resourceTypeOf s = r
      · have hs : seriesOf projectId r (s :: rest) = s :: seriesOf projectId r rest := by
          simp [seriesOf, List.filter_cons, hm, hr]
        rw [hs]
        simp only [accept, hm, if_true, hr, lookup_accumulate st r r _ (firstPointBytes_lt s),
          Option.getD_some]
        by_cases he : seriesOf projectId r rest = []
        · simp [he, bytesOf, Nat.add_comm]
        · simp only [he, if_false, bytesOf, List.map_cons, List.sum_cons, reduceCtorEq]
          rw [Nat.mod_add_mod]
          congr 2
          omega
      · have hs : seriesOf projectId r (s :: rest) = seriesOf projectId r rest := by
          simp [seriesOf, List.filter_cons, hm, hr]
        rw [hs]
        simp only [accept, hm, if_true, lookup_accumulate st _ r _ (firstPointBytes_lt s), hr,
          if_false]
    · have hs : seriesOf projectId r (s :: rest) = seriesOf projectId r rest := by
        simp [seriesOf, List.filter_cons, hm]
      rw [hs]
      simp [accept, hm]

theorem seriesOf_cons_nil (projectId r : String) (s : Option TimeSeries)
    (rest : List (Option TimeSeries)) (h : seriesOf projectId r (s :: rest) = []) :
    (matchesProject projectId s = true → resourceTypeOf s ≠ r) ∧ seriesOf projectId r rest = [] := by
  unfold seriesOf at h ⊢
  rw [List.filter_cons] at h
  split at h
  · cases h
  · rename_i hc
    refine ⟨fun hm hr => hc ?_, h⟩
    simp [hm, hr]

theorem otherSum_foldl_modEq (projectId : String) (ts : List (Option TimeSeries))
    (st : GoMap × Nat) (h : seriesOf projectId "TOTAL" ts = []) :
    otherSum (ts.foldl (accept projectId) st).1 ≡
      otherSum st.1 + bytesOf (ts.filter (matchesProject projectId)) [MOD 2 ^ 64] := by
  induction ts generalizing st with
  | nil => simp [bytesOf, Nat.ModEq]
  | cons s rest ih =>
    obtain ⟨h1, h2⟩ := seriesOf_cons_nil projectId "TOTAL" s rest h
    rw [List.foldl_cons]
    refine (ih _ h2).trans ?_
    by_cases hm : matchesProject projectId s = true
    · simp only [accept, hm, if_true, List.filter_cons, bytesOf, List.map_cons, List.sum_cons]
      rw [← Nat.add_assoc]
      exact Nat.ModEq.add_right _ (otherSum_accumulate_modEq st _ _ (h1 hm))
    · simp [accept, hm, List.filter_cons, Nat.ModEq]

theorem otherSum_foldl_le (projectId : String) (ts : List (Option TimeSeries))
    (st : GoMap × Nat) (h : seriesOf projectId "TOTAL" ts = []) :
    otherSum (ts.foldl (accept projectId) st).1 ≤
      otherSum st.1 + bytesOf (ts.filter (matchesProject projectId)) := by
  induction ts generalizing st with
  | nil => simp [bytesOf]
  | cons s rest ih =>
    obtain ⟨h1, h2⟩ := seriesOf_cons_nil projectId "TOTAL" s rest h
    rw [List.foldl_cons]
    refine (ih _ h2).trans ?_
    by_cases hm : matchesProject projectId s = true
    · simp only [accept, hm, if_true, List.filter_cons, bytesOf, List.map_cons, List.sum_cons]
      have := otherSum_accumulate_le st (resourceTypeOf s) (firstPointBytes s) (h1 hm)
      omega
    · simp [accept, hm, List.filter_cons]

theorem nodup_foldl (projectId : String) (ts : List (Option TimeSeries)) (st : GoMap × Nat)
    (h : (st.1.map Prod.fst).Nodup) :
    ((ts.foldl (accept projectId) st).1.map Prod.fst).Nodup := by
  induction ts generalizing st with
  | nil => exact h
  | cons s rest ih =>
    rw [List.foldl_cons]
    apply ih
    unfold accept
    split
    · exact nodup_accumulate _ _ _ h
    · exact h

/-- What `getLogUsageByResourceForProject` returns when it returns a map. -/
theorem getLogUsage_ok (projectId : String) (service : MonitoringService)
    (ts : List (Option TimeSeries)) (m : GoMap) (hs : service projectId = .ok ts)
    (h : getLogUsageByResourceForProject projectId service = .ok m) :
    ts.all (usable projectId) = true ∧
      m = GoMap.store (ts.foldl (accept projectId) ([], 0)).1 "TOTAL"
        (ts.foldl (accept projectId) ([], 0)).2 := by
  unfold getLogUsageByResourceForProject at h
  rw [hs] at h
  simp only at h
  cases hl : aggregateLoop projectId ([], 0) ts with
  | error p => rw [hl] at h; cases h
  | ok st =>
    rw [hl] at h
    obtain ⟨hu, hst⟩ := aggregateLoop_ok projectId ts _ st hl
    refine ⟨hu, ?_⟩
    obtain ⟨logs, total⟩ := st
    simp only at h
    rw [← hst]
    exact (Except.ok.inj h).symm

/-! ## The aggregation: claims -/

theorem loopBody_mismatch (projectId : String) (st : GoMap × Nat) (s : Option TimeSeries)
    (h : mismatchesProject projectId s = true) : loopBody projectId st s = .ok st := by
  cases s with
  | none => simp [mismatchesProject] at h
  | some s =>
    obtain ⟨metric, points, resource⟩ := s
    cases resource with
    | none => simp [mismatchesProject] at h
    | some resource =>
      have hp : labelOf resource.Labels "project_id" ≠ projectId := by
        simpa [mismatchesProject] using h
      simp [loopBody, hp]

theorem aggregateLoop_filter (projectId : String) (ts : List (Option TimeSeries))
    (st : GoMap × Nat) :
    aggregateLoop projectId st ts =
      aggregateLoop projectId st (ts.filter (fun s => !mismatchesProject projectId s)) := by
  induction ts generalizing st with
  | nil => rfl
  | cons s rest ih =>
    by_cases h : mismatchesProject projectId s = true
    · simp only [List.filter_cons, h, Bool.not_true, Bool.false_eq_true, if_false]
      simp only [aggregateLoop, loopBody_mismatch projectId st s h]
      exact ih st
    · have h' : mismatchesProject projectId s = false := by simpa using h
      simp only [List.filter_cons, h', Bool.not_false, if_true, aggregateLoop]
      cases loopBody projectId st s with
      | error p => rfl
      | ok st' => exact ih st'

theorem resourceLines_no_warning (m : GoMap) : (resourceLines m).any Line.isWarning = false := by
  induction m with
  | nil => rfl
  | cons e rest ih =>
    obtain ⟨k, v⟩ := e
    unfold resourceLines
    split
    · exact ih
    · simp [List.any_cons, Line.isWarning, ih]

theorem mem_resourceLines (m : GoMap) (k : String) (v : Nat) (hk : k ≠ "TOTAL")
    (h : (k, v) ∈ m) : Line.resource k v ∈ resourceLines m := by
  induction m with
  | nil => cases h
  | cons e rest ih =>
    obtain ⟨a, b⟩ := e
    unfold resourceLines
    rcases List.mem_cons.1 h with he | hr
    · cases he
      simp [hk]
    · split
      · exact ih hr
      · exact List.mem_cons_of_mem _ (ih hr)

theorem read_store_total (m : GoMap) (v : Nat) : GoMap.lookup (GoMap.store m "TOTAL" v) "TOTAL" = some v := by
  simp [lookup_store]

/-- C1 (counterexample): a matching series whose label `resource_type` is `"TOTAL"` adds its
5 bytes to the total and gets no entry of its own: the map is `{"TOTAL": 5}`, whose other keys
sum to 0. -/
theorem total_collision_counterexample :
    getLogUsageByResourceForProject "p1" (fun _ => .ok [sampleSeries "p1" "TOTAL" 5]) =
        .ok [("TOTAL", 5)] ∧
      GoMap.lookup [("TOTAL", 5)] "TOTAL" = some 5 ∧ otherSum [("TOTAL", 5)] = 0 ∧
      otherKeys [("TOTAL", 5)] = [] := by
  decide

/-- C1 (amended): when `getLogUsageByResourceForProject` returns a map for a list in which no
series matching the project carries the resource type `"TOTAL"`, the value under `"TOTAL"` is
the sum of the values of all other keys reduced modulo `2 ^ 64`, and is that sum itself when
the bytes of the matching series add up to less than `2 ^ 64`; the keys of the map are distinct
and for the empty list the map is `{"TOTAL": 0}`. -/
theorem total_eq_sum_of_entries (projectId : String) (service : MonitoringService)
    (ts : List (Option TimeSeries)) (m : GoMap)
    (hs : service projectId = .ok ts)
    (h : getLogUsageByResourceForProject projectId service = .ok m)
    (ht : seriesOf projectId "TOTAL" ts = []) :
    GoMap.lookup m "TOTAL" = some (otherSum m % 2 ^ 64) ∧
      (bytesOf (ts.filter (matchesProject projectId)) < 2 ^ 64 →
        GoMap.lookup m "TOTAL" = some (otherSum m)) ∧
      (m.map Prod.fst).Nodup ∧
      (ts = [] → m = [("TOTAL", 0)]) := by
  obtain ⟨_, hm⟩ := getLogUsage_ok projectId service ts m hs h
  have htot := total_foldl projectId ts ([], 0) (by norm_num)
  have hmod := otherSum_foldl_modEq projectId ts ([], 0) ht
  have hle := otherSum_foldl_le projectId ts ([], 0) ht
  have hnd := nodup_foldl projectId ts ([], 0) (by simp)
  simp only [otherSum, Nat.zero_add] at htot hmod hle
  have hsum : otherSum m = otherSum (ts.foldl (accept projectId) ([], 0)).1 := by
    rw [hm, otherSum_store_total]
  have hlk : GoMap.lookup m "TOTAL" = some (ts.foldl (accept projectId) ([], 0)).2 := by
    rw [hm, read_store_total]
  refine ⟨?_, ?_, ?_, ?_⟩
  · rw [hlk, hsum, htot]
    exact congrArg some hmod.symm
  · intro hlt
    rw [hlk, hsum, htot, ← hmod]
    congr 1
    exact Nat.mod_eq_of_lt (lt_of_le_of_lt hle hlt)
  · rw [hm]
    exact nodup_store _ _ _ hnd
  · intro he
    subst he
    rw [hm]
    rfl

/-- C1 (witness): the scenario samples, whose map is `{gce, gke, TOTAL}`. -/
theorem total_eq_sum_of_entries_witness :
    GoMap.lookup [("gce", 10000000000), ("gke", 9000000000), ("TOTAL", 19000000000)] "TOTAL" =
        some (otherSum [("gce", 10000000000), ("gke", 9000000000), ("TOTAL", 19000000000)]
          % 2 ^ 64) ∧
      (bytesOf (scenarioSeries.filter (matchesProject "p1")) < 2 ^ 64 →
        GoMap.lookup [("gce", 10000000000), ("gke", 9000000000), ("TOTAL", 19000000000)] "TOTAL" =
          some (otherSum [("gce", 10000000000), ("gke", 9000000000), ("TOTAL", 19000000000)])) ∧
      (([("gce", 10000000000), ("gke", 9000000000), ("TOTAL", 19000000000)] : GoMap).map
        Prod.fst).Nodup ∧
      (scenarioSeries = [] →
        ([("gce", 10000000000), ("gke", 9000000000), ("TOTAL", 19000000000)] : GoMap) =
          [("TOTAL", 0)]) :=
  total_eq_sum_of_entries "p1" scenarioService scenarioSeries _ rfl (by decide) (by decide)

/-- C2: the series whose resource label `project_id` differs from the project id contribute
nothing: `getLogUsageByResourceForProject` returns the same result, map or failure, for the
list without them. -/
theorem mismatching_series_ignored (projectId : String) (ts : List (Option TimeSeries)) :
    getLogUsageByResourceForProject projectId (fun _ => .ok ts) =
      getLogUsageByResourceForProject projectId
        (fun _ => .ok (ts.filter (fun s => !mismatchesProject projectId s))) := by
  simp only [getLogUsageByResourceForProject]
  rw [← aggregateLoop_filter]

/-- C3 (counterexample): three matching `gce` series of 9223372036854775807 bytes each, whose
sum is 27670116110564327421: the entry `gce` holds 9223372036854775805, the sum reduced modulo
`2 ^ 64`. -/
theorem entry_wraps_counterexample :
    getLogUsageByResourceForProject "p1" (fun _ => .ok
        [sampleSeries "p1" "gce" 9223372036854775807, sampleSeries "p1" "gce" 9223372036854775807,
          sampleSeries "p1" "gce" 9223372036854775807]) =
        .ok [("gce", 9223372036854775805), ("TOTAL", 9223372036854775805)] ∧
      bytesOf (seriesOf "p1" "gce"
        [sampleSeries "p1" "gce" 9223372036854775807, sampleSeries "p1" "gce" 9223372036854775807,
          sampleSeries "p1" "gce" 9223372036854775807]) = 27670116110564327421 ∧
      GoMap.lookup [("gce", 9223372036854775805), ("TOTAL", 9223372036854775805)] "gce" ≠
        some 27670116110564327421 := by
  decide

/-- C3 (amended): in the map `getLogUsageByResourceForProject` returns, a resource type `r`
other than `"TOTAL"` is a key exactly when some series matching the project carries it, and
its value is the sum of the first-point byte values of those series reduced modulo `2 ^ 64`
(the sum itself when it is below `2 ^ 64`). -/
theorem entry_eq_sum_of_first_points (projectId : String) (service : MonitoringService)
    (ts : List (Option TimeSeries)) (m : GoMap) (r : String)
    (hs : service projectId = .ok ts)
    (h : getLogUsageByResourceForProject projectId service = .ok m)
    (hr : r ≠ "TOTAL") :
    GoMap.lookup m r =
        (if seriesOf projectId r ts = [] then none
         else some (bytesOf (seriesOf projectId r ts) % 2 ^ 64)) ∧
      (r ∈ m.map Prod.fst ↔ seriesOf projectId r ts ≠ []) ∧
      (seriesOf projectId r ts ≠ [] → bytesOf (seriesOf projectId r ts) < 2 ^ 64 →
        GoMap.lookup m r = some (bytesOf (seriesOf projectId r ts))) := by
  obtain ⟨_, hm⟩ := getLogUsage_ok projectId service ts m hs h
  have hl : GoMap.lookup m r =
      (if seriesOf projectId r ts = [] then none
       else some (bytesOf (seriesOf projectId r ts) % 2 ^ 64)) := by
    rw [hm, lookup_store, if_neg (fun e => hr e.symm), lookup_foldl]
    simp [GoMap.lookup]
  refine ⟨hl, ?_, ?_⟩
  · rw [← lookup_isSome_iff, hl]
    by_cases he : seriesOf projectId r ts = [] <;> simp [he]
  · intro hne hlt
    rw [hl, if_neg hne, Nat.mod_eq_of_lt hlt]

/-- C3 (witness): in `mixedSeries` the two `gce` series of `p1` hold 7 and 5 bytes in their
first points (one has a second point of 100 bytes) and the entry `gce` is 12. -/
theorem entry_eq_sum_of_first_points_witness :
    GoMap.lookup [("gce", 12), ("gke", 3), ("TOTAL", 15)] "gce" =
        (if seriesOf "p1" "gce" mixedSeries = [] then none
         else some (bytesOf (seriesOf "p1" "gce" mixedSeries) % 2 ^ 64)) ∧
      ("gce" ∈ ([("gce", 12), ("gke", 3), ("TOTAL", 15)] : GoMap).map Prod.fst ↔
        seriesOf "p1" "gce" mixedSeries ≠ []) ∧
      (seriesOf "p1" "gce" mixedSeries ≠ [] → bytesOf (seriesOf "p1" "gce" mixedSeries) < 2 ^ 64 →
        GoMap.lookup [("gce", 12), ("gke", 3), ("TOTAL", 15)] "gce" =
          some (bytesOf (seriesOf "p1" "gce" mixedSeries))) :=
  entry_eq_sum_of_first_points "p1" mixedService mixedSeries _ "gce" rfl (by decide) (by decide)

/-- C4 (counterexample): a matching series with an empty list of points makes the loop panic
on `series.Points[0]`, a matching series without metric or whose first point has no integer
value, and a series without resource, make it panic on a nil pointer; no map is returned. -/
theorem aggregation_panics_counterexample :
    getLogUsageByResourceForProject "p1"
        (fun _ => .ok [some ⟨some ⟨[]⟩, [], some ⟨[("project_id", "p1")]⟩⟩]) =
        .error (.panic .indexOutOfRange) ∧
      getLogUsageByResourceForProject "p1"
        (fun _ => .ok [some ⟨some ⟨[]⟩, [some ⟨some ⟨none⟩⟩], some ⟨[("project_id", "p1")]⟩⟩]) =
        .error (.panic .nilDereference) ∧
      getLogUsageByResourceForProject "p1"
        (fun _ => .ok [some ⟨some ⟨[]⟩, [some ⟨some ⟨some 1⟩⟩], none⟩]) =
        .error (.panic .nilDereference) := by
  decide

/-- C4 (amended): once the time series have been fetched, `getLogUsageByResourceForProject`
returns a map exactly when every series of the list is usable: it is there with a resource
and, if it matches the project id, it has a metric and a first point carrying an integer
value. Series of other projects are dropped whatever else they lack; any other list ends in
a panic. -/
theorem aggregation_completes_iff (projectId : String) (service : MonitoringService)
    (ts : List (Option TimeSeries)) (hs : service projectId = .ok ts) :
    ((∃ m, getLogUsageByResourceForProject projectId service = .ok m) ↔
        ts.all (usable projectId) = true) ∧
      (ts.all (usable projectId) = false →
        ∃ p, getLogUsageByResourceForProject projectId service = .error (.panic p)) := by
  refine ⟨⟨?_, ?_⟩, ?_⟩
  · rintro ⟨m, hm⟩
    exact (getLogUsage_ok projectId service ts m hs hm).1
  · intro hu
    refine ⟨GoMap.store (ts.foldl (accept projectId) ([], 0)).1 "TOTAL"
      (ts.foldl (accept projectId) ([], 0)).2, ?_⟩
    simp only [getLogUsageByResourceForProject, hs, aggregateLoop_usable projectId ts _ hu]
  · intro hu
    obtain ⟨p, hp⟩ := aggregateLoop_unusable projectId ts ([], 0) hu
    exact ⟨p, by simp only [getLogUsageByResourceForProject, hs, hp]⟩

/-- C4 (witness): `mixedSeries`, which holds a series of another project without metric or
points, is aggregated into a map. -/
theorem aggregation_completes_iff_witness :
    ((∃ m, getLogUsageByResourceForProject "p1" mixedService = .ok m) ↔
        mixedSeries.all (usable "p1") = true) ∧
      (mixedSeries.all (usable "p1") = false →
        ∃ p, getLogUsageByResourceForProject "p1" mixedService = .error (.panic p)) :=
  aggregation_completes_iff "p1" mixedService mixedSeries rfl

/-- C9: for an active project whose usage was aggregated into `logs`, the body of the loop of
`main` prints nothing exactly when `logs["TOTAL"]` is 0; otherwise it prints a report that
starts with the project line and holds the total line, in whatever order the map is ranged
over. -/
theorem skip_iff_total_zero (service : MonitoringService) (targetBytes : Nat)
    (order : MapOrder) (project : Project)
    (logs : GoMap) (ha : project.LifecycleState = "ACTIVE")
    (hl : getLogUsageByResourceForProject project.ProjectId service = .ok logs) :
    (mainLoopBody service targetBytes order project = .ok [] ↔ GoMap.read logs "TOTAL" = 0) ∧
      (GoMap.read logs "TOTAL" ≠ 0 →
        ∃ rest, mainLoopBody service targetBytes order project =
            .ok (Line.project project.ProjectId :: rest) ∧
          Line.total (GoMap.read logs "TOTAL") ∈ rest) := by
  by_cases h0 : GoMap.read logs "TOTAL" = 0
  · simp [mainLoopBody, ha, hl, h0]
  · refine ⟨?_, fun _ => ?_⟩
    · simp [mainLoopBody, ha, hl, h0]
    · refine ⟨resourceLines (order.enumerate logs) ++ [Line.total (GoMap.read logs "TOTAL")] ++
        (if GoMap.read logs "TOTAL" > targetBytes then
          [Line.warning (GoMap.read logs "TOTAL") targetBytes] else []), ?_, ?_⟩
      · simp [mainLoopBody, ha, hl, h0]
      · simp

/-- C9 (witness): the project `p1` of the scenario, whose total is 19,000,000,000, with the
map ranged over in reverse. -/
theorem skip_iff_total_zero_witness :
    (mainLoopBody scenarioService 0 MapOrder.reversed ⟨"p1", "ACTIVE"⟩ = .ok [] ↔
        GoMap.read [("gce", 10000000000), ("gke", 9000000000), ("TOTAL", 19000000000)] "TOTAL"
          = 0) ∧
      (GoMap.read [("gce", 10000000000), ("gke", 9000000000), ("TOTAL", 19000000000)] "TOTAL" ≠ 0 →
        ∃ rest, mainLoopBody scenarioService 0 MapOrder.reversed ⟨"p1", "ACTIVE"⟩ =
            .ok (Line.project "p1" :: rest) ∧
          Line.total (GoMap.read [("gce", 10000000000), ("gke", 9000000000),
            ("TOTAL", 19000000000)] "TOTAL") ∈ rest) :=
  skip_iff_total_zero scenarioService 0 MapOrder.reversed ⟨"p1", "ACTIVE"⟩ _ rfl (by decide)

/-! ## Lemmas on binary64 rounding -/

theorem bitLength_spec (fuel n : Nat) (h : n ≤ fuel) (hn : 0 < n) :
    0 < bitLength fuel n ∧ 2 ^ (bitLength fuel n - 1) ≤ n ∧ n < 2 ^ bitLength fuel n := by
  induction fuel generalizing n with
  | zero => omega
  | succ fuel ih =>
    have hn0 : n ≠ 0 := by omega
    simp only [bitLength, hn0, if_false]
    by_cases h2 : n / 2 = 0
    · have h1 : n = 1 := by omega
      subst h1
      cases fuel <;> simp [bitLength]
    · obtain ⟨hb, hlo, hhi⟩ := ih (n / 2) (by omega) (by omega)
      refine ⟨by omega, ?_, ?_⟩
      · have : bitLength fuel (n / 2) + 1 - 1 = (bitLength fuel (n / 2) - 1) + 1 := by omega
        rw [this, pow_succ]
        omega
      · rw [pow_succ]
        omega

theorem two_zpow_eq (k : Int) : (2 : ℚ) ^ k = (2 : ℚ) ^ k.toNat / (2 : ℚ) ^ (-k).toNat := by
  rcases le_total 0 k with h | h
  · have h1 : (-k).toNat = 0 := by omega
    have h2 : (k.toNat : Int) = k := Int.toNat_of_nonneg h
    rw [h1, pow_zero, div_one, ← zpow_natCast, h2]
  · have h1 : k.toNat = 0 := by omega
    have h2 : ((-k).toNat : Int) = -k := Int.toNat_of_nonneg (by omega)
    rw [h1, pow_zero, one_div, ← zpow_natCast, h2, zpow_neg, inv_inv]

theorem scaled_le_iff (n d : Nat) (k : Int) :
    d * 2 ^ k.toNat ≤ n * 2 ^ (-k).toNat ↔ (d : ℚ) * 2 ^ k ≤ n := by
  have hp : (0 : ℚ) < 2 ^ (-k).toNat := by positivity
  rw [two_zpow_eq, ← mul_div_assoc, div_le_iff₀ hp]
  exact_mod_cast Iff.rfl

theorem floorLog2Ratio_spec (n d : Nat) (hn : 0 < n) (hd : 0 < d) :
    (2 : ℚ) ^ floorLog2Ratio n d ≤ (n : ℚ) / d ∧ (n : ℚ) / d < 2 ^ (floorLog2Ratio n d + 1) := by
  obtain ⟨ha0, halo, hahi⟩ := bitLength_spec n n le_rfl hn
  obtain ⟨hb0, hblo, hbhi⟩ := bitLength_spec d d le_rfl hd
  have hdq : (0 : ℚ) < d := by exact_mod_cast hd
  have hnq : (0 : ℚ) < n := by exact_mod_cast hn
  set a := bitLength n n with ha
  set b := bitLength d d with hb
  have halo' : (2 : ℚ) ^ ((a : Int) - 1) ≤ n := by
    have : ((a - 1 : Nat) : Int) = (a : Int) - 1 := by omega
    rw [← this, zpow_natCast]
    exact_mod_cast halo
  have hahi' : (n : ℚ) < 2 ^ (a : Int) := by
    rw [zpow_natCast]
    exact_mod_cast hahi
  have hblo' : (2 : ℚ) ^ ((b : Int) - 1) ≤ d := by
    have : ((b - 1 : Nat) : Int) = (b : Int) - 1 := by omega
    rw [← this, zpow_natCast]
    exact_mod_cast hblo
  have hbhi' : (d : ℚ) < 2 ^ (b : Int) := by
    rw [zpow_natCast]
    exact_mod_cast hbhi
  have h2 : (0 : ℚ) < 2 := by norm_num
  unfold floorLog2Ratio
  simp only
  split
  · rename_i ht
    rw [scaled_le_iff] at ht
    refine ⟨?_, ?_⟩
    · rw [le_div_iff₀ hdq, mul_comm]
      exact ht
    · rw [div_lt_iff₀ hdq]
      calc (n : ℚ) < 2 ^ (a : Int) := hahi'
        _ = 2 ^ ((a : Int) - b + 1) * 2 ^ ((b : Int) - 1) := by
            rw [← zpow_add₀ (by norm_num : (2 : ℚ) ≠ 0)]
            congr 1
            ring
        _ ≤ 2 ^ ((a : Int) - b + 1) * d := by
            apply mul_le_mul_of_nonneg_left hblo'
            positivity
  · rename_i ht
    rw [scaled_le_iff, not_le] at ht
    refine ⟨?_, ?_⟩
    · rw [le_div_iff₀ hdq]
      calc (2 : ℚ) ^ ((a : Int) - b - 1) * d ≤ 2 ^ ((a : Int) - b - 1) * 2 ^ (b : Int) := by
            apply mul_le_mul_of_nonneg_left hbhi'.le
            positivity
        _ = 2 ^ ((a : Int) - 1) := by
            rw [← zpow_add₀ (by norm_num : (2 : ℚ) ≠ 0)]
            congr 1
            ring
        _ ≤ n := halo'
    · rw [div_lt_iff₀ hdq, mul_comm]
      have : (a : Int) - b - 1 + 1 = a - b := by ring
      rw [this]
      exact ht

theorem nearest_spec (num den m : Nat) (hden : 0 < den)
    (hm : m = if 2 * (num % den) < den then num / den
      else if den < 2 * (num % den) then num / den + 1
      else if num / den % 2 = 0 then num / den else num / den + 1) :
    2 * (den * m) ≤ 2 * num + den ∧ 2 * num ≤ 2 * (den * m) + den ∧
      num / den ≤ m ∧ m ≤ num / den + 1 ∧ (num % den = 0 → m = num / den) := by
  have hq := Nat.div_add_mod num den
  have hr := Nat.mod_lt num hden
  have hs : den * (num / den + 1) = den * (num / den) + den := Nat.mul_succ _ _
  split_ifs at hm with h1 h2 h3 <;> subst hm <;> refine ⟨?_, ?_, ?_, ?_, ?_⟩ <;> omega

theorem scaled_ratio (n d : Nat) (e : Int) :
    ((n * 2 ^ (-e).toNat : Nat) : ℚ) / ((d * 2 ^ e.toNat : Nat) : ℚ) = (n : ℚ) / d * 2 ^ (-e) := by
  have h := two_zpow_eq (-e)
  rw [neg_neg] at h
  rw [h]
  push_cast
  rw [div_mul_div_comm]

theorem roundRatio_exp (n d : Nat) (hn : 0 < n) :
    (roundRatio n d).exp = floorLog2Ratio n d - 52 := by
  simp [roundRatio, hn.ne']

theorem roundRatio_mant (n d : Nat) (hn : 0 < n) :
    (roundRatio n d).mant =
      if 2 * (n * 2 ^ (-(floorLog2Ratio n d - 52)).toNat % (d * 2 ^ (floorLog2Ratio n d - 52).toNat))
          < d * 2 ^ (floorLog2Ratio n d - 52).toNat then
        n * 2 ^ (-(floorLog2Ratio n d - 52)).toNat / (d * 2 ^ (floorLog2Ratio n d - 52).toNat)
      else if d * 2 ^ (floorLog2Ratio n d - 52).toNat <
          2 * (n * 2 ^ (-(floorLog2Ratio n d - 52)).toNat % (d * 2 ^ (floorLog2Ratio n d - 52).toNat)) then
        n * 2 ^ (-(floorLog2Ratio n d - 52)).toNat / (d * 2 ^ (floorLog2Ratio n d - 52).toNat) + 1
      else if n * 2 ^ (-(floorLog2Ratio n d - 52)).toNat / (d * 2 ^ (floorLog2Ratio n d - 52).toNat) % 2 = 0
        then n * 2 ^ (-(floorLog2Ratio n d - 52)).toNat / (d * 2 ^ (floorLog2Ratio n d - 52).toNat)
        else n * 2 ^ (-(floorLog2Ratio n d - 52)).toNat / (d * 2 ^ (floorLog2Ratio n d - 52).toNat) + 1 := by
  simp only [roundRatio, hn.ne', if_false]

/-- The significand of a rounded positive ratio: within one half of the scaled ratio, between
`2 ^ 52` and `2 ^ 53`, and the scaled ratio itself when that is an integer. -/
theorem roundRatio_spec (n d : Nat) (hn : 0 < n) (hd : 0 < d) :
    |((roundRatio n d).mant : ℚ) - (n : ℚ) / d * 2 ^ (-(floorLog2Ratio n d - 52))| ≤ 1 / 2 ∧
      2 ^ 52 ≤ (roundRatio n d).mant ∧ (roundRatio n d).mant ≤ 2 ^ 53 ∧
      (d * 2 ^ (floorLog2Ratio n d - 52).toNat ∣ n * 2 ^ (-(floorLog2Ratio n d - 52)).toNat →
        ((roundRatio n d).mant : ℚ) = (n : ℚ) / d * 2 ^ (-(floorLog2Ratio n d - 52))) := by
  have hm := roundRatio_mant n d hn
  obtain ⟨hlo, hhi⟩ := floorLog2Ratio_spec n d hn hd
  set e := floorLog2Ratio n d - 52 with he
  set num := n * 2 ^ (-e).toNat with hnum
  set den := d * 2 ^ e.toNat with hden
  set m := (roundRatio n d).mant with hmdef
  have hden0 : 0 < den := Nat.mul_pos hd (by positivity)
  have hdenq : (0 : ℚ) < (den : ℚ) := by exact_mod_cast hden0
  obtain ⟨h1, h2, h3, h4, h5⟩ := nearest_spec num den m hden0 hm
  have hz : (num : ℚ) / den = (n : ℚ) / d * 2 ^ (-e) := scaled_ratio n d e
  have hk : floorLog2Ratio n d = e + 52 := by omega
  have hzlo : (2 : ℚ) ^ 52 ≤ (num : ℚ) / den := by
    rw [hz]
    calc (2 : ℚ) ^ 52 = 2 ^ (e + 52) * 2 ^ (-e) := by
          rw [← zpow_add₀ (by norm_num : (2 : ℚ) ≠ 0)]
          have : e + 52 + -e = 52 := by ring
          rw [this]
          norm_num
      _ ≤ (n : ℚ) / d * 2 ^ (-e) := by
          apply mul_le_mul_of_nonneg_right _ (by positivity)
          rw [← hk]
          exact hlo
  have hzhi : (num : ℚ) / den < 2 ^ 53 := by
    rw [hz]
    calc (n : ℚ) / d * 2 ^ (-e) < 2 ^ (e + 52 + 1) * 2 ^ (-e) := by
          apply mul_lt_mul_of_pos_right _ (by positivity)
          rw [← hk]
          exact hhi
      _ = 2 ^ 53 := by
          rw [← zpow_add₀ (by norm_num : (2 : ℚ) ≠ 0)]
          have : e + 52 + 1 + -e = 53 := by ring
          rw [this]
          norm_num
  have hnlo : 2 ^ 52 * den ≤ num := by
    rw [le_div_iff₀ hdenq] at hzlo
    exact_mod_cast hzlo
  have hnhi : num < 2 ^ 53 * den := by
    rw [div_lt_iff₀ hdenq] at hzhi
    exact_mod_cast hzhi
  have hqlo : 2 ^ 52 ≤ num / den := (Nat.le_div_iff_mul_le hden0).2 hnlo
  have hqhi : num / den < 2 ^ 53 := (Nat.div_lt_iff_lt_mul hden0).2 hnhi
  refine ⟨?_, le_trans hqlo h3, by omega, ?_⟩
  · rw [← hz, abs_le]
    have h1q : (2 : ℚ) * (den * m) ≤ 2 * num + den := by exact_mod_cast h1
    have h2q : (2 : ℚ) * num ≤ 2 * (den * m) + den := by exact_mod_cast h2
    have hdz : (den : ℚ) * ((num : ℚ) / den) = num := mul_div_cancel₀ _ hdenq.ne'
    constructor
    · have h : (den : ℚ) * (-(1 / 2) + (num : ℚ) / den) ≤ den * m := by
        rw [mul_add, hdz]
        linarith
      have := le_of_mul_le_mul_left h hdenq
      linarith
    · have h : (den : ℚ) * m ≤ den * (1 / 2 + (num : ℚ) / den) := by
        rw [mul_add, hdz]
        linarith
      have := le_of_mul_le_mul_left h hdenq
      linarith
  · intro hdvd
    have hr0 : num % den = 0 := Nat.mod_eq_zero_of_dvd hdvd
    rw [← hz, h5 hr0, Nat.cast_div hdvd hdenq.ne']

theorem zpow_index_lt (K B : Int) (v : ℚ) (h1 : (2 : ℚ) ^ K ≤ v) (h2 : v < 2 ^ B) : K < B :=
  (zpow_lt_zpow_iff_right₀ (by norm_num : (1 : ℚ) < 2)).1 (lt_of_le_of_lt h1 h2)

/-- The value and the exponent of a rounded and rescaled positive ratio. -/
theorem scale_roundRatio_spec (n d : Nat) (s : Int) (hn : 0 < n) (hd : 0 < d) :
    |((roundRatio n d).scale s).toRat - (n : ℚ) / d * 2 ^ s| ≤ (n : ℚ) / d * 2 ^ s / 2 ^ 53 ∧
      (2 : ℚ) ^ (((roundRatio n d).scale s).exp + 52) ≤ (n : ℚ) / d * 2 ^ s ∧
      (n : ℚ) / d * 2 ^ s < 2 ^ (((roundRatio n d).scale s).exp + 52 + 1) ∧
      ((d * 2 ^ (floorLog2Ratio n d - 52).toNat ∣ n * 2 ^ (-(floorLog2Ratio n d - 52)).toNat) →
        ((roundRatio n d).scale s).toRat = (n : ℚ) / d * 2 ^ s) := by
  obtain ⟨hnear, _, _, hexact⟩ := roundRatio_spec n d hn hd
  obtain ⟨hlo, hhi⟩ := floorLog2Ratio_spec n d hn hd
  have hexp := roundRatio_exp n d hn
  have h2 : (2 : ℚ) ≠ 0 := by norm_num
  set k := floorLog2Ratio n d with hk
  set m := (roundRatio n d).mant with hm
  have hs : (0 : ℚ) < 2 ^ s := by positivity
  have hval : ((roundRatio n d).scale s).toRat = (m : ℚ) * 2 ^ (k - 52 + s) := by
    simp only [F64.toRat, F64.scale, hexp]
  have hsplit : (2 : ℚ) ^ (k - 52 + s) = 2 ^ (k - 52) * 2 ^ s := zpow_add₀ h2 _ _
  have hinv : (2 : ℚ) ^ (-(k - 52)) * 2 ^ (k - 52) = 1 := by
    rw [← zpow_add₀ h2]
    simp
  have hexp2 : ((roundRatio n d).scale s).exp + 52 = k + s := by
    simp only [F64.scale, hexp]
    ring
  have hks : (2 : ℚ) ^ (k + s) = 2 ^ k * 2 ^ s := zpow_add₀ h2 _ _
  refine ⟨?_, ?_, ?_, ?_⟩
  · rw [hval, hsplit]
    have he : (m : ℚ) * (2 ^ (k - 52) * 2 ^ s) - (n : ℚ) / d * 2 ^ s =
        ((m : ℚ) - (n : ℚ) / d * 2 ^ (-(k - 52))) * (2 ^ (k - 52) * 2 ^ s) := by
      rw [sub_mul, mul_assoc ((n : ℚ) / d), ← mul_assoc (2 ^ (-(k - 52))), hinv, one_mul]
    rw [he, abs_mul, abs_of_pos (by positivity : (0 : ℚ) < 2 ^ (k - 52) * 2 ^ s)]
    have h53 : (2 : ℚ) ^ (k - 52) = 2 ^ k / 2 ^ 52 := by
      rw [zpow_sub₀ h2]
      norm_num
    calc |(m : ℚ) - (n : ℚ) / d * 2 ^ (-(k - 52))| * (2 ^ (k - 52) * 2 ^ s)
        ≤ 1 / 2 * (2 ^ (k - 52) * 2 ^ s) := by
          apply mul_le_mul_of_nonneg_right hnear (by positivity)
      _ = 2 ^ k * 2 ^ s / 2 ^ 53 := by
          rw [h53]
          ring
      _ ≤ (n : ℚ) / d * 2 ^ s / 2 ^ 53 := by
          apply div_le_div_of_nonneg_right _ (by positivity)
          exact mul_le_mul_of_nonneg_right hlo hs.le
  · rw [hexp2, hks]
    exact mul_le_mul_of_nonneg_right hlo hs.le
  · rw [hexp2]
    have : k + s + 1 = (k + 1) + s := by ring
    rw [this, zpow_add₀ h2]
    exact mul_lt_mul_of_pos_right hhi hs
  · intro hdvd
    rw [hval, hsplit, hexact hdvd, mul_assoc, ← mul_assoc (2 ^ (-(k - 52))), hinv, one_mul]

theorem toUint64_eq (x : F64) :
    F64.toUint64 x = if ⌊x.toRat⌋₊ < 2 ^ 64 then ⌊x.toRat⌋₊ else 2 ^ 63 := by
  have h : ⌊x.toRat⌋₊ = x.mant * 2 ^ x.exp.toNat / 2 ^ (-x.exp).toNat := by
    rw [F64.toRat, two_zpow_eq, ← mul_div_assoc]
    have := Nat.floor_div_eq_div (α := ℚ) (x.mant * 2 ^ x.exp.toNat) (2 ^ (-x.exp).toNat)
    push_cast at this
    exact this
  simp only [F64.toUint64, h]

theorem checked_eq_some (x : F64) (h1 : -1074 ≤ x.exp) (h2 : x.exp ≤ 970) :
    F64.checked x = some x := by
  simp [F64.checked, h1, h2]

theorem scale_zero (x : F64) : x.scale 0 = x := by
  cases x
  simp [F64.scale]

/-- The conversion `float64(n)` of a positive integer: its error, its exponent, its
significand, and its exactness up to `2 ^ 53`. -/
theorem ofNat_spec (n : Nat) (hn : 0 < n) :
    |(F64.ofNat n).toRat - n| ≤ (n : ℚ) / 2 ^ 53 ∧
      (2 : ℚ) ^ ((F64.ofNat n).exp + 52) ≤ n ∧ (n : ℚ) < 2 ^ ((F64.ofNat n).exp + 52 + 1) ∧
      2 ^ 52 ≤ (F64.ofNat n).mant ∧ (F64.ofNat n).mant ≤ 2 ^ 53 ∧
      (n ≤ 2 ^ 53 → (F64.ofNat n).toRat = n) := by
  obtain ⟨h1, h2, h3, h4⟩ := scale_roundRatio_spec n 1 0 hn Nat.one_pos
  obtain ⟨_, hm1, hm2, _⟩ := roundRatio_spec n 1 hn Nat.one_pos
  rw [scale_zero] at h1 h2 h3 h4
  simp only [Nat.cast_one, div_one, zpow_zero, mul_one] at h1 h2 h3 h4
  refine ⟨h1, h2, h3, hm1, hm2, ?_⟩
  intro hle
  apply h4
  have hexp := roundRatio_exp n 1 hn
  have hk : (roundRatio n 1).exp + 52 < 54 := by
    apply zpow_index_lt _ _ (n : ℚ) h2
    have : (n : ℚ) ≤ 2 ^ 53 := by exact_mod_cast hle
    have h54 : (2 : ℚ) ^ (54 : Int) = 2 ^ 53 * 2 := by norm_num
    rw [h54]
    linarith
  rw [hexp] at hk h2
  rcases le_or_lt (floorLog2Ratio n 1 - 52) 0 with he | he
  · have : (floorLog2Ratio n 1 - 52).toNat = 0 := by omega
    rw [this]
    simp
  · have he1 : floorLog2Ratio n 1 - 52 = 1 := by omega
    have hn53 : (2 : ℚ) ^ (53 : Int) ≤ n := by
      have : floorLog2Ratio n 1 - 52 + 52 = 53 := by omega
      rw [this] at h2
      exact h2
    have hn' : 2 ^ 53 ≤ n := by
      have : ((2 ^ 53 : Nat) : ℚ) ≤ n := by
        have h53 : (2 : ℚ) ^ (53 : Int) = ((2 ^ 53 : Nat) : ℚ) := by norm_num
        rw [← h53]
        exact hn53
      exact_mod_cast this
    have hneq : n = 2 ^ 53 := le_antisymm hle hn'
    rw [he1, hneq]
    decide

theorem ofNat_mant_pos (n : Nat) (hn : 0 < n) : 0 < (F64.ofNat n).mant := by
  obtain ⟨_, _, _, h, _⟩ := ofNat_spec n hn
  exact lt_of_lt_of_le (by norm_num) h

/-- A float divided by itself is the float 1. -/
theorem roundRatio_self (m : Nat) (hm : 0 < m) : roundRatio m m = ⟨2 ^ 52, -52⟩ := by
  obtain ⟨hlo, hhi⟩ := floorLog2Ratio_spec m m hm hm
  obtain ⟨_, _, _, hexact⟩ := roundRatio_spec m m hm hm
  have hexp := roundRatio_exp m m hm
  have hmq : (m : ℚ) ≠ 0 := by exact_mod_cast hm.ne'
  rw [div_self hmq] at hlo hhi
  have hk1 : floorLog2Ratio m m < 1 := by
    apply zpow_index_lt _ _ 1 hlo
    norm_num
  have hk2 : (0 : Int) < floorLog2Ratio m m + 1 := by
    apply zpow_index_lt _ _ 1 _ hhi
    norm_num
  have hk : floorLog2Ratio m m = 0 := by omega
  rw [hk] at hexact hexp
  have hdvd : m * 2 ^ ((0 : Int) - 52).toNat ∣ m * 2 ^ (-((0 : Int) - 52)).toNat := by
    have e1 : ((0 : Int) - 52).toNat = 0 := by decide
    have e2 : (-((0 : Int) - 52)).toNat = 52 := by decide
    rw [e1, e2, pow_zero, mul_one]
    exact Dvd.intro _ rfl
  have hmant : ((roundRatio m m).mant : ℚ) = ((2 ^ 52 : Nat) : ℚ) := by
    rw [hexact hdvd, div_self hmq]
    norm_num
  have hmant' : (roundRatio m m).mant = 2 ^ 52 := by exact_mod_cast hmant
  cases hr : roundRatio m m with
  | mk mant exp =>
    rw [hr] at hmant' hexp
    simp only at hmant' hexp
    rw [hmant', hexp]
    norm_num

theorem div_self_eq (x : F64) (hx : 0 < x.mant) : F64.div x x = some ⟨2 ^ 52, -52⟩ := by
  simp only [F64.div, hx.ne', if_false, roundRatio_self x.mant hx, F64.scale, sub_self, add_zero]
  decide

theorem checked_of_value (x : F64) (v : ℚ) (h1 : (2 : ℚ) ^ (x.exp + 52) ≤ v)
    (h2 : v < 2 ^ (x.exp + 52 + 1)) (hlo : (2 : ℚ) ^ (-1022 : Int) ≤ v)
    (hhi : v < (2 : ℚ) ^ (1022 : Int)) : F64.checked x = some x := by
  have ha : x.exp + 52 < 1022 := zpow_index_lt _ _ v h1 hhi
  have hb : (-1022 : Int) < x.exp + 52 + 1 := zpow_index_lt _ _ v hlo h2
  exact checked_eq_some x (by omega) (by omega)

/-- The quotient of two positive floats: it is defined and correctly rounded. -/
theorem div_spec (x y : F64) (hx : 0 < x.mant) (hy : 0 < y.mant)
    (hlo : (2 : ℚ) ^ (-1022 : Int) ≤ x.toRat / y.toRat)
    (hhi : x.toRat / y.toRat < (2 : ℚ) ^ (1022 : Int)) :
    ∃ p, F64.div x y = some p ∧ 0 < p.mant ∧
      |p.toRat - x.toRat / y.toRat| ≤ x.toRat / y.toRat / 2 ^ 53 := by
  obtain ⟨h1, h2, h3, _⟩ := scale_roundRatio_spec x.mant y.mant (x.exp - y.exp) hx hy
  obtain ⟨_, hm, _, _⟩ := roundRatio_spec x.mant y.mant hx hy
  have h20 : (2 : ℚ) ≠ 0 := by norm_num
  have hv : (x.mant : ℚ) / y.mant * 2 ^ (x.exp - y.exp) = x.toRat / y.toRat := by
    simp only [F64.toRat]
    rw [zpow_sub₀ h20, div_mul_div_comm]
  rw [hv] at h1 h2 h3
  refine ⟨(roundRatio x.mant y.mant).scale (x.exp - y.exp), ?_, ?_, h1⟩
  · simp only [F64.div, hy.ne', if_false]
    exact checked_of_value _ _ h2 h3 hlo hhi
  · exact lt_of_lt_of_le (by norm_num) hm

/-- The product of two positive floats: it is defined and correctly rounded. -/
theorem mul_spec (x y : F64) (hx : 0 < x.mant) (hy : 0 < y.mant)
    (hlo : (2 : ℚ) ^ (-1022 : Int) ≤ x.toRat * y.toRat)
    (hhi : x.toRat * y.toRat < (2 : ℚ) ^ (1022 : Int)) :
    ∃ p, F64.mul x y = some p ∧ 0 < p.mant ∧
      |p.toRat - x.toRat * y.toRat| ≤ x.toRat * y.toRat / 2 ^ 53 := by
  have hxy : 0 < x.mant * y.mant := Nat.mul_pos hx hy
  obtain ⟨h1, h2, h3, _⟩ := scale_roundRatio_spec (x.mant * y.mant) 1 (x.exp + y.exp) hxy
    Nat.one_pos
  obtain ⟨_, hm, _, _⟩ := roundRatio_spec (x.mant * y.mant) 1 hxy Nat.one_pos
  have h20 : (2 : ℚ) ≠ 0 := by norm_num
  have hv : ((x.mant * y.mant : Nat) : ℚ) / (1 : Nat) * 2 ^ (x.exp + y.exp) =
      x.toRat * y.toRat := by
    simp only [F64.toRat]
    rw [zpow_add₀ h20]
    push_cast
    ring
  rw [hv] at h1 h2 h3
  refine ⟨(roundRatio (x.mant * y.mant) 1).scale (x.exp + y.exp), ?_, ?_, h1⟩
  · simp only [F64.mul]
    exact checked_of_value _ _ h2 h3 hlo hhi
  · exact lt_of_lt_of_le (by norm_num) hm

/-- The product of a float by the float 1 has the value of the float. -/
theorem mul_one_spec (x : F64) (h1 : 2 ^ 52 ≤ x.mant) (h2 : x.mant ≤ 2 ^ 53)
    (hlo : (2 : ℚ) ^ (-1022 : Int) ≤ x.toRat) (hhi : x.toRat < (2 : ℚ) ^ (1022 : Int)) :
    ∃ p, F64.mul x ⟨2 ^ 52, -52⟩ = some p ∧ p.toRat = x.toRat := by
  have hx : 0 < x.mant := lt_of_lt_of_le (by norm_num) h1
  have hn : 0 < x.mant * 2 ^ 52 := Nat.mul_pos hx (by norm_num)
  obtain ⟨_, g2, g3, g4⟩ := scale_roundRatio_spec (x.mant * 2 ^ 52) 1 (x.exp + -52) hn
    Nat.one_pos
  obtain ⟨hklo, hkhi⟩ := floorLog2Ratio_spec (x.mant * 2 ^ 52) 1 hn Nat.one_pos
  have h20 : (2 : ℚ) ≠ 0 := by norm_num
  have hv : ((x.mant * 2 ^ 52 : Nat) : ℚ) / (1 : Nat) * 2 ^ (x.exp + -52) = x.toRat := by
    simp only [F64.toRat]
    have e : (2 : ℚ) ^ (-52 : Int) = ((2 : ℚ) ^ 52)⁻¹ := by
      rw [zpow_neg]
      norm_num
    rw [zpow_add₀ h20, e]
    push_cast
    field_simp
    norm_num
    ring
  rw [hv] at g2 g3 g4
  refine ⟨(roundRatio (x.mant * 2 ^ 52) 1).scale (x.exp + -52), ?_, ?_⟩
  · simp only [F64.mul]
    exact checked_of_value _ _ g2 g3 hlo hhi
  · apply g4
    set k := floorLog2Ratio (x.mant * 2 ^ 52) 1 with hk
    have hq : (((x.mant * 2 ^ 52 : Nat) : ℚ)) / ((1 : Nat) : ℚ) ≤ 2 ^ (105 : Int) := by
      have : ((x.mant : ℚ)) ≤ 2 ^ 53 := by exact_mod_cast h2
      push_cast
      rw [div_one]
      calc (x.mant : ℚ) * 2 ^ 52 ≤ 2 ^ 53 * 2 ^ 52 := by
            apply mul_le_mul_of_nonneg_right this (by positivity)
        _ = 2 ^ (105 : Int) := by norm_num
    have hk106 : k < 106 := by
      apply zpow_index_lt _ _ _ hklo
      apply lt_of_le_of_lt hq
      exact (zpow_lt_zpow_iff_right₀ (by norm_num : (1 : ℚ) < 2)).2 (by norm_num)
    rcases le_or_lt k 104 with hle | hgt
    · have he : (k - 52).toNat ≤ 52 := by omega
      rw [one_mul]
      exact Dvd.dvd.mul_right (Dvd.dvd.mul_left (pow_dvd_pow 2 he) _) _
    · have hk105 : k = 105 := by omega
      have hx53 : 2 ^ 53 ≤ x.mant := by
        rw [hk105] at hklo
        have h : ((2 ^ 105 : Nat) : ℚ) ≤ ((x.mant * 2 ^ 52 : Nat) : ℚ) := by
          have e : (2 : ℚ) ^ (105 : Int) = ((2 ^ 105 : Nat) : ℚ) := by norm_num
          rw [← e]
          simpa using hklo
        have h' : 2 ^ 105 ≤ x.mant * 2 ^ 52 := by exact_mod_cast h
        have e' : (2 : Nat) ^ 105 = 2 ^ 53 * 2 ^ 52 := by norm_num
        rw [e'] at h'
        exact Nat.le_of_mul_le_mul_right h' (by norm_num)
      have hxeq : x.mant = 2 ^ 53 := le_antisymm h2 hx53
      rw [hk105, hxeq]
      decide

/-! ## Lemmas on the ceiling -/

theorem daysIn_bounds (month : Nat) (year : Int) :
    28 ≤ daysIn month year ∧ daysIn month year ≤ 31 := by
  unfold daysIn
  split_ifs <;> omega

/-- Day 0 of the next month is the last day of the month. -/
theorem lastDay_eq (year : Int) (month : Nat) (h1 : 1 ≤ month) (h2 : month ≤ 12) :
    (Date year ((month : Int) + 1) 0).Day = daysIn month year := by
  interval_cases month <;> simp [Date, normalizeDay, Int.fdiv, Int.fmod]

theorem target_unfold (now : Time) (hv : now.Valid) :
    getTargetLogIngestionValueForCurrentDay now =
      ceilingAt maxLogIngestionPerMonth now.Day (daysIn now.Month now.Year) := by
  obtain ⟨h1, h2, _, _⟩ := hv
  simp only [getTargetLogIngestionValueForCurrentDay, ceilingAt,
    lastDay_eq now.Year now.Month h1 h2]

theorem abs_le_bounds (x v : ℚ) (h : |x - v| ≤ v / 2 ^ 53) :
    v * (1 - 1 / 2 ^ 53) ≤ x ∧ x ≤ v * (1 + 1 / 2 ^ 53) := by
  obtain ⟨h1, h2⟩ := abs_le.1 h
  constructor <;> linarith

theorem small_zpow_le (v : ℚ) (h : 1 / 128 ≤ v) : (2 : ℚ) ^ (-1022 : Int) ≤ v := by
  have h1 : (2 : ℚ) ^ (-1022 : Int) ≤ 2 ^ (-7 : Int) :=
    (zpow_le_zpow_iff_right₀ (by norm_num : (1 : ℚ) < 2)).2 (by norm_num)
  have h2 : (2 : ℚ) ^ (-7 : Int) = 1 / 128 := by
    rw [zpow_neg]
    norm_num
  rw [h2] at h1
  exact le_trans h1 h

theorem lt_large_zpow (v : ℚ) (h : v < 2 ^ 70) : v < (2 : ℚ) ^ (1022 : Int) := by
  have h1 : (2 : ℚ) ^ (70 : Int) ≤ 2 ^ (1022 : Int) :=
    (zpow_le_zpow_iff_right₀ (by norm_num : (1 : ℚ) < 2)).2 (by norm_num)
  have h2 : (2 : ℚ) ^ (70 : Int) = 2 ^ 70 := by norm_num
  rw [h2] at h1
  exact lt_of_lt_of_le h h1

/-- The float `percentage`: it is defined, positive and within one rounding of
`day / lastDay`, and it is the float 1 on the last day of the month. -/
theorem percentage_spec (d L : Nat) (hd1 : 1 ≤ d) (hdL : d ≤ L) (hL31 : L ≤ 31) :
    ∃ p : F64, F64.div (F64.ofNat d) (F64.ofNat L) = some p ∧ 0 < p.mant ∧
      (d : ℚ) / L * (1 - 1 / 2 ^ 53) ≤ p.toRat ∧ p.toRat ≤ (d : ℚ) / L * (1 + 1 / 2 ^ 53) ∧
      (1 : ℚ) / 64 ≤ p.toRat ∧ p.toRat ≤ 2 ∧ (d = L → p = ⟨2 ^ 52, -52⟩) := by
  have hL0 : 0 < L := by omega
  have hd0 : 0 < d := hd1
  obtain ⟨_, _, _, _, _, hdex⟩ := ofNat_spec d hd0
  obtain ⟨_, _, _, _, _, hLex⟩ := ofNat_spec L hL0
  have hdval : (F64.ofNat d).toRat = d := hdex (by omega)
  have hLval : (F64.ofNat L).toRat = L := hLex (by omega)
  have hdq : (1 : ℚ) ≤ d := by exact_mod_cast hd1
  have hdLq : (d : ℚ) ≤ L := by exact_mod_cast hdL
  have hLq : (L : ℚ) ≤ 31 := by exact_mod_cast hL31
  have hLpos : (0 : ℚ) < L := by exact_mod_cast hL0
  have hratio1 : (d : ℚ) / L ≤ 1 := (div_le_one hLpos).2 hdLq
  have hratio2 : (1 : ℚ) / 31 ≤ (d : ℚ) / L := by
    rw [div_le_div_iff₀ (by norm_num) hLpos]
    linarith
  obtain ⟨p, hp, hpm, hperr⟩ := div_spec (F64.ofNat d) (F64.ofNat L) (ofNat_mant_pos d hd0)
    (ofNat_mant_pos L hL0)
    (by rw [hdval, hLval]; exact small_zpow_le _ (by linarith))
    (by rw [hdval, hLval]; exact lt_large_zpow _ (by linarith))
  rw [hdval, hLval] at hperr
  obtain ⟨hplo, hphi⟩ := abs_le_bounds _ _ hperr
  have hu1 : (1 : ℚ) / 2 ≤ 1 - 1 / 2 ^ 53 := by norm_num
  have hu2 : (1 : ℚ) + 1 / 2 ^ 53 ≤ 2 := by norm_num
  have hp_lo : (1 : ℚ) / 64 ≤ p.toRat := by
    have : (1 : ℚ) / 31 * (1 / 2) ≤ (d : ℚ) / L * (1 - 1 / 2 ^ 53) :=
      mul_le_mul hratio2 hu1 (by norm_num) (by linarith)
    have e : (1 : ℚ) / 64 ≤ 1 / 31 * (1 / 2) := by norm_num
    exact le_trans e (le_trans this hplo)
  have hp_hi : p.toRat ≤ 2 := by
    have : (d : ℚ) / L * (1 + 1 / 2 ^ 53) ≤ 1 * 2 :=
      mul_le_mul hratio1 hu2 (by norm_num) (by norm_num)
    rw [one_mul] at this
    exact le_trans hphi this
  refine ⟨p, hp, hpm, hplo, hphi, hp_lo, hp_hi, ?_⟩
  intro hlast
  rw [hlast, div_self_eq _ (ofNat_mant_pos L hL0)] at hp
  exact (Option.some.inj hp).symm

/-- The float the ceiling is truncated from: it lies within three roundings of
`cap * day / lastDay`, and on the last day of the month it is `float64(cap)`. -/
theorem ceiling_value (cap d L : Nat) (hc0 : 0 < cap) (hc : cap < 2 ^ 64) (hd1 : 1 ≤ d)
    (hdL : d ≤ L) (hL31 : L ≤ 31) :
    ∃ y : F64, ceilingAt cap d L = some (F64.toUint64 y) ∧
      (cap : ℚ) * ((d : ℚ) / (L : ℚ)) * (1 - 1 / 2 ^ 53) ^ 3 ≤ y.toRat ∧
      y.toRat ≤ (cap : ℚ) * ((d : ℚ) / (L : ℚ)) * (1 + 1 / 2 ^ 53) ^ 3 ∧
      (d = L → y.toRat = (F64.ofNat cap).toRat) := by
  rw [ceilingAt]
  have hL0 : 0 < L := by omega
  have hLpos : (0 : ℚ) < L := by exact_mod_cast hL0
  have hdpos : (0 : ℚ) < d := by exact_mod_cast hd1
  have hratio0 : (0 : ℚ) ≤ (d : ℚ) / L := (div_pos hdpos hLpos).le
  obtain ⟨p, hp, hpm, hplo, hphi, hp_lo, hp_hi, hplast⟩ := percentage_spec d L hd1 hdL hL31
  obtain ⟨hcerr, _, _, hcm1, hcm2, _⟩ := ofNat_spec cap hc0
  obtain ⟨hclo, hchi⟩ := abs_le_bounds _ _ hcerr
  have hcapq : (1 : ℚ) ≤ cap := by exact_mod_cast hc0
  have hcapq2 : (cap : ℚ) < 2 ^ 64 := by exact_mod_cast hc
  have hu1 : (1 : ℚ) / 2 ≤ 1 - 1 / 2 ^ 53 := by norm_num
  have hu2 : (1 : ℚ) + 1 / 2 ^ 53 ≤ 2 := by norm_num
  have hc_lo : (1 : ℚ) / 2 ≤ (F64.ofNat cap).toRat := by
    have : (1 : ℚ) * (1 / 2) ≤ (cap : ℚ) * (1 - 1 / 2 ^ 53) :=
      mul_le_mul hcapq hu1 (by norm_num) (by linarith)
    linarith
  have hc_hi : (F64.ofNat cap).toRat ≤ 2 ^ 65 := by
    have : (cap : ℚ) * (1 + 1 / 2 ^ 53) ≤ 2 ^ 64 * 2 :=
      mul_le_mul hcapq2.le hu2 (by norm_num) (by norm_num)
    have e : (2 : ℚ) ^ 64 * 2 = 2 ^ 65 := by norm_num
    rw [e] at this
    exact le_trans hchi this
  have hcp_lo : (1 : ℚ) / 128 ≤ (F64.ofNat cap).toRat * p.toRat := by
    have : (1 : ℚ) / 2 * (1 / 64) ≤ (F64.ofNat cap).toRat * p.toRat :=
      mul_le_mul hc_lo hp_lo (by norm_num) (by linarith)
    have e : (1 : ℚ) / 128 = 1 / 2 * (1 / 64) := by norm_num
    rw [e]
    exact this
  have hcp_hi : (F64.ofNat cap).toRat * p.toRat < 2 ^ 70 := by
    have : (F64.ofNat cap).toRat * p.toRat ≤ 2 ^ 65 * 2 :=
      mul_le_mul hc_hi hp_hi (by linarith) (by norm_num)
    have e : (2 : ℚ) ^ 65 * 2 < 2 ^ 70 := by norm_num
    exact lt_of_le_of_lt this e
  obtain ⟨y, hy, _, hyerr⟩ := mul_spec (F64.ofNat cap) p (ofNat_mant_pos cap hc0) hpm
    (small_zpow_le _ hcp_lo) (lt_large_zpow _ hcp_hi)
  obtain ⟨hylo, hyhi⟩ := abs_le_bounds _ _ hyerr
  refine ⟨y, by simp only [hp, hy], ?_, ?_, ?_⟩
  · have hs : (0 : ℚ) ≤ 1 - 1 / 2 ^ 53 := by norm_num
    have h1 : (cap : ℚ) * (1 - 1 / 2 ^ 53) * ((d : ℚ) / L * (1 - 1 / 2 ^ 53)) ≤
        (F64.ofNat cap).toRat * p.toRat := by
      apply mul_le_mul hclo hplo _ (by linarith)
      exact mul_nonneg hratio0 hs
    have h2 := mul_le_mul_of_nonneg_right h1 hs
    calc (cap : ℚ) * ((d : ℚ) / L) * (1 - 1 / 2 ^ 53) ^ 3
        = (cap : ℚ) * (1 - 1 / 2 ^ 53) * ((d : ℚ) / L * (1 - 1 / 2 ^ 53)) * (1 - 1 / 2 ^ 53) := by
          ring
      _ ≤ (F64.ofNat cap).toRat * p.toRat * (1 - 1 / 2 ^ 53) := h2
      _ ≤ y.toRat := hylo
  · have hs : (0 : ℚ) ≤ 1 + 1 / 2 ^ 53 := by norm_num
    have h1 : (F64.ofNat cap).toRat * p.toRat ≤
        (cap : ℚ) * (1 + 1 / 2 ^ 53) * ((d : ℚ) / L * (1 + 1 / 2 ^ 53)) := by
      apply mul_le_mul hchi hphi (by linarith)
      exact mul_nonneg (by linarith) hs
    have h2 := mul_le_mul_of_nonneg_right h1 hs
    calc y.toRat ≤ (F64.ofNat cap).toRat * p.toRat * (1 + 1 / 2 ^ 53) := hyhi
      _ ≤ (cap : ℚ) * (1 + 1 / 2 ^ 53) * ((d : ℚ) / L * (1 + 1 / 2 ^ 53)) * (1 + 1 / 2 ^ 53) := h2
      _ = (cap : ℚ) * ((d : ℚ) / L) * (1 + 1 / 2 ^ 53) ^ 3 := by ring
  · intro hlast
    have hpe := hplast hlast
    obtain ⟨y', hy', hyv⟩ := mul_one_spec (F64.ofNat cap) hcm1 hcm2
      (small_zpow_le _ (by linarith)) (lt_large_zpow _ (by linarith))
    rw [hpe, hy'] at hy
    rw [← Option.some.inj hy]
    exact hyv

theorem toUint64_of_value (y : F64) (n : Nat) (hy : y.toRat = n) (hn : n < 2 ^ 64) :
    F64.toUint64 y = n := by
  rw [toUint64_eq, hy, Nat.floor_natCast, if_pos hn]

theorem toRat_nonneg (x : F64) : 0 ≤ x.toRat := by
  unfold F64.toRat
  positivity

/-- Before the last day of the month the float the ceiling is truncated from is below the
cap. -/
theorem ceiling_value_lt (cap d L : Nat) (hc0 : 0 < cap) (hday : d < L) (hL31 : L ≤ 31)
    (y : F64) (hy : y.toRat ≤ (cap : ℚ) * ((d : ℚ) / (L : ℚ)) * (1 + 1 / 2 ^ 53) ^ 3) :
    y.toRat < cap := by
  have hLpos : (0 : ℚ) < L := by
    have : 0 < L := by omega
    exact_mod_cast this
  have hcq : (0 : ℚ) < cap := by exact_mod_cast hc0
  have hr : (d : ℚ) / L ≤ 30 / 31 := by
    rw [div_le_div_iff₀ hLpos (by norm_num)]
    have h1 : (d : ℚ) + 1 ≤ L := by exact_mod_cast hday
    have h2 : (L : ℚ) ≤ 31 := by exact_mod_cast hL31
    linarith
  have hk : (30 : ℚ) / 31 * (1 + 1 / 2 ^ 53) ^ 3 < 1 := by norm_num
  have h3 : (d : ℚ) / L * (1 + 1 / 2 ^ 53) ^ 3 < 1 := by
    have : (d : ℚ) / L * (1 + 1 / 2 ^ 53) ^ 3 ≤ 30 / 31 * (1 + 1 / 2 ^ 53) ^ 3 :=
      mul_le_mul_of_nonneg_right hr (by positivity)
    linarith
  calc y.toRat ≤ (cap : ℚ) * ((d : ℚ) / L * (1 + 1 / 2 ^ 53) ^ 3) := by
        rw [← mul_assoc]
        exact hy
    _ < (cap : ℚ) * 1 := mul_lt_mul_of_pos_left h3 hcq
    _ = cap := mul_one _

/-- The ceiling on a day before the last of the month: it is the truncation of a float below
the cap. -/
theorem ceiling_defined_lt (cap d L : Nat) (hc0 : 0 < cap) (hc : cap < 2 ^ 64) (hd1 : 1 ≤ d)
    (hday : d < L) (hL31 : L ≤ 31) :
    ∃ y : F64, ceilingAt cap d L = some ⌊y.toRat⌋₊ ∧ ⌊y.toRat⌋₊ < cap ∧
      (cap : ℚ) * ((d : ℚ) / (L : ℚ)) * (1 - 1 / 2 ^ 53) ^ 3 ≤ y.toRat ∧
      y.toRat ≤ (cap : ℚ) * ((d : ℚ) / (L : ℚ)) * (1 + 1 / 2 ^ 53) ^ 3 := by
  obtain ⟨y, hy, hlo, hhi, _⟩ := ceiling_value cap d L hc0 hc hd1 hday.le hL31
  have hlt := ceiling_value_lt cap d L hc0 hday hL31 y hhi
  have hfl : ⌊y.toRat⌋₊ < cap := (Nat.floor_lt (toRat_nonneg y)).2 hlt
  have hu : F64.toUint64 y = ⌊y.toRat⌋₊ := by
    rw [toUint64_eq, if_pos (lt_trans hfl hc)]
  exact ⟨y, by rw [hy, hu], hfl, hlo, hhi⟩

/-- The ceiling on the last day of the month is the cap, for a cap that `float64` holds
exactly. -/
theorem ceiling_last_day (cap L : Nat) (hc0 : 0 < cap) (h53 : cap ≤ 2 ^ 53) (hL1 : 1 ≤ L)
    (hL31 : L ≤ 31) : ceilingAt cap L L = some cap := by
  have hc : cap < 2 ^ 64 := lt_of_le_of_lt h53 (by norm_num)
  obtain ⟨y, hy, _, _, hlast⟩ := ceiling_value cap L L hc0 hc hL1 le_rfl hL31
  obtain ⟨_, _, _, _, _, hex⟩ := ofNat_spec cap hc0
  rw [hy, toUint64_of_value y cap ((hlast rfl).trans (hex h53)) hc]

/-- The ceiling is defined and at most the cap, for a cap that `float64` holds exactly. -/
theorem ceiling_defined_le (cap d L : Nat) (hc0 : 0 < cap) (h53 : cap ≤ 2 ^ 53) (hd1 : 1 ≤ d)
    (hdL : d ≤ L) (hL31 : L ≤ 31) : ∃ v, ceilingAt cap d L = some v ∧ v ≤ cap := by
  have hc : cap < 2 ^ 64 := lt_of_le_of_lt h53 (by norm_num)
  rcases Nat.lt_or_ge d L with hday | hge
  · obtain ⟨y, hy, hlt, _, _⟩ := ceiling_defined_lt cap d L hc0 hc hd1 hday hL31
    exact ⟨_, hy, hlt.le⟩
  · have hlast : d = L := le_antisymm hdL hge
    subst hlast
    exact ⟨cap, ceiling_last_day cap d hc0 h53 hd1 hL31, le_refl _⟩

/-- Two days of a month: the float of the later day is at least one above the float of the
earlier day when the cap is at least 32. -/
theorem value_gap (cap d1 d2 L : Nat) (y1 y2 : ℚ) (h32 : 32 ≤ cap) (hlt : d1 < d2)
    (hL : L ≤ 31) (hd2 : d2 ≤ L)
    (h1 : y1 ≤ (cap : ℚ) * ((d1 : ℚ) / (L : ℚ)) * (1 + 1 / 2 ^ 53) ^ 3)
    (h2 : (cap : ℚ) * ((d2 : ℚ) / (L : ℚ)) * (1 - 1 / 2 ^ 53) ^ 3 ≤ y2) :
    y1 + 1 ≤ y2 := by
  have hLpos : (0 : ℚ) < L := by
    have : 0 < L := by omega
    exact_mod_cast this
  have hcq : (32 : ℚ) ≤ cap := by exact_mod_cast h32
  have hLq : (L : ℚ) ≤ 31 := by exact_mod_cast hL
  have hd12 : (d1 : ℚ) + 1 ≤ d2 := by exact_mod_cast hlt
  have hd1 : (d1 : ℚ) ≤ 30 := by
    have : d1 ≤ 30 := by omega
    exact_mod_cast this
  generalize hA : ((1 : ℚ) - 1 / 2 ^ 53) ^ 3 = A at h2
  generalize hB : ((1 : ℚ) + 1 / 2 ^ 53) ^ 3 = B at h1
  have hA0 : 0 ≤ A := by rw [← hA]; norm_num
  have hAB : A ≤ B := by rw [← hA, ← hB]; norm_num
  have hk : (31 : ℚ) / 32 ≤ 31 * A - 30 * B := by rw [← hA, ← hB]; norm_num
  have e1 : 0 ≤ ((d2 : ℚ) - d1 - 1) * A := mul_nonneg (by linarith) hA0
  have e2 : 0 ≤ (30 - (d1 : ℚ)) * (B - A) := mul_nonneg (by linarith) (by linarith)
  have e3 : (d2 : ℚ) * A - d1 * B =
      ((d2 : ℚ) - d1 - 1) * A + (30 - (d1 : ℚ)) * (B - A) + (31 * A - 30 * B) := by ring
  have hgap : (31 : ℚ) / 32 ≤ (d2 : ℚ) * A - d1 * B := by linarith
  have hcL : (32 : ℚ) / 31 ≤ (cap : ℚ) / L := by
    rw [div_le_div_iff₀ (by norm_num) hLpos]
    linarith
  have hprod : (32 : ℚ) / 31 * (31 / 32) ≤ (cap : ℚ) / L * ((d2 : ℚ) * A - d1 * B) :=
    mul_le_mul hcL hgap (by norm_num) (le_trans (by norm_num) hcL)
  have e4 : (cap : ℚ) * ((d2 : ℚ) / L) * A - (cap : ℚ) * ((d1 : ℚ) / L) * B =
      (cap : ℚ) / L * ((d2 : ℚ) * A - d1 * B) := by
    field_simp
    ring
  have e5 : (32 : ℚ) / 31 * (31 / 32) = 1 := by norm_num
  linarith

/-- Two days of a month: both ceilings are defined, the first is positive and strictly below
the second, for a cap from 32 up to `2 ^ 53`. -/
theorem ceiling_increasing (cap d1 d2 L : Nat) (h32 : 32 ≤ cap) (h53 : cap ≤ 2 ^ 53)
    (hd1 : 1 ≤ d1) (hlt : d1 < d2) (hd2 : d2 ≤ L) (hL31 : L ≤ 31) :
    ∃ v1 v2, ceilingAt cap d1 L = some v1 ∧ ceilingAt cap d2 L = some v2 ∧ 0 < v1 ∧
      v1 < v2 := by
  have hpos : 0 < cap := by omega
  have hc : cap < 2 ^ 64 := lt_of_le_of_lt h53 (by norm_num)
  obtain ⟨y1, hy1, hfl1, hlo1, hhi1⟩ :=
    ceiling_defined_lt cap d1 L hpos hc hd1 (by omega) hL31
  have hfirst : 0 < ⌊y1.toRat⌋₊ := by
    have hone : (1 : ℚ) ≤ y1.toRat := by
      have h0 : (0 : ℚ) ≤ (cap : ℚ) * (((0 : Nat) : ℚ) / (L : ℚ)) * (1 + 1 / 2 ^ 53) ^ 3 := by
        simp
      have := value_gap cap 0 d1 L 0 y1.toRat h32 hd1 hL31 (by omega) h0 hlo1
      linarith
    exact (Nat.le_floor_iff (toRat_nonneg y1)).2 (by simpa using hone)
  rcases Nat.lt_or_ge d2 L with hday | hge
  · obtain ⟨y2, hy2, _, hlo2, _⟩ :=
      ceiling_defined_lt cap d2 L hpos hc (by omega) hday hL31
    have hgap : y1.toRat + 1 ≤ y2.toRat := value_gap cap d1 d2 L _ _ h32 hlt hL31 hd2 hhi1 hlo2
    have hfloor : ⌊y1.toRat⌋₊ < ⌊y2.toRat⌋₊ := by
      have h1 : (⌊y1.toRat⌋₊ : ℚ) ≤ y1.toRat := Nat.floor_le (toRat_nonneg y1)
      have h2 : ((⌊y1.toRat⌋₊ + 1 : Nat) : ℚ) ≤ y2.toRat := by
        push_cast
        linarith
      exact (Nat.le_floor_iff (toRat_nonneg y2)).2 h2
    exact ⟨_, _, hy1, hy2, hfirst, hfloor⟩
  · have hlast : d2 = L := le_antisymm hd2 hge
    subst hlast
    exact ⟨_, _, hy1, ceiling_last_day cap d2 hpos h53 (by omega) hL31, hfirst, hfl1⟩

theorem maxLogIngestionPerMonth_bounds :
    32 ≤ maxLogIngestionPerMonth ∧ maxLogIngestionPerMonth ≤ 2 ^ 53 := by
  decide

/-- The 10th of a 30-day month. -/
theorem target_tenth_of_thirty (now : Time) (hv : now.Valid) (hd : now.Day = 10)
    (hL : daysIn now.Month now.Year = 30) :
    getTargetLogIngestionValueForCurrentDay now = some 17895697066 := by
  rw [target_unfold now hv, hd, hL]
  set_option maxRecDepth 10000 in decide

/-! ## The ceiling: claims -/

/-- C5: on the last day of a month the ceiling is the full cap of the program, whatever the
year and the month: the month has 28, 29, 30 or 31 days, day 0 of the next month is its last
day, also from December into January of the next year and in February of a leap year, and
`percentage` is then exactly 1. -/
theorem last_day_ceiling (year : Int) (month : Nat) (h1 : 1 ≤ month) (h12 : month ≤ 12) :
    getTargetLogIngestionValueForCurrentDay ⟨year, month, daysIn month year⟩ =
        some maxLogIngestionPerMonth ∧
      (Date year ((month : Int) + 1) 0).Day = daysIn month year ∧
      28 ≤ daysIn month year ∧ daysIn month year ≤ 31 ∧
      (month = 2 → isLeap year = true → daysIn month year = 29) ∧
      (month = 2 → isLeap year = false → daysIn month year = 28) ∧
      (month = 12 → daysIn month year = 31) := by
  obtain ⟨h28, h31⟩ := daysIn_bounds month year
  have hv : (⟨year, month, daysIn month year⟩ : Time).Valid :=
    ⟨h1, h12, by show 1 ≤ daysIn month year; omega, le_refl _⟩
  refine ⟨?_, lastDay_eq year month h1 h12, h28, h31, ?_, ?_, ?_⟩
  · rw [target_unfold _ hv]
    exact ceiling_last_day maxLogIngestionPerMonth (daysIn month year) (by decide) (by decide)
      (by omega) h31
  · intro hm hl
    simp [daysIn, hm, hl]
  · intro hm hl
    simp [daysIn, hm, hl]
  · intro hm
    simp [daysIn, hm]

/-- C5 (witness): 29 February 2024, the last day of February in a leap year. -/
theorem last_day_ceiling_witness :
    getTargetLogIngestionValueForCurrentDay ⟨2024, 2, daysIn 2 2024⟩ =
        some maxLogIngestionPerMonth ∧
      (Date 2024 (((2 : Nat) : Int) + 1) 0).Day = daysIn 2 2024 ∧
      28 ≤ daysIn 2 2024 ∧ daysIn 2 2024 ≤ 31 ∧
      (2 = 2 → isLeap 2024 = true → daysIn 2 2024 = 29) ∧
      (2 = 2 → isLeap 2024 = false → daysIn 2 2024 = 28) ∧
      (2 = 12 → daysIn 2 2024 = 31) :=
  last_day_ceiling 2024 2 (by decide) (by decide)

/-- C6: on every valid calendar date the ceiling is defined and lies between 0 and the cap of
the program. -/
theorem ceiling_le_cap (now : Time) (hv : now.Valid) :
    ∃ v, getTargetLogIngestionValueForCurrentDay now = some v ∧ 0 ≤ v ∧
      v ≤ maxLogIngestionPerMonth := by
  obtain ⟨_, h31⟩ := daysIn_bounds now.Month now.Year
  obtain ⟨v, hv1, hv2⟩ := ceiling_defined_le maxLogIngestionPerMonth now.Day
    (daysIn now.Month now.Year) (by decide) (by decide) hv.2.2.1 hv.2.2.2 h31
  exact ⟨v, by rw [target_unfold now hv, hv1], Nat.zero_le _, hv2⟩

/-- C6 (witness): 10 November 2026. -/
theorem ceiling_le_cap_witness :
    ∃ v, getTargetLogIngestionValueForCurrentDay ⟨2026, 11, 10⟩ = some v ∧ 0 ≤ v ∧
      v ≤ maxLogIngestionPerMonth :=
  ceiling_le_cap ⟨2026, 11, 10⟩ (by decide)

/-- C7: within a month the ceiling is strictly increasing in the day: for two days `d1 < d2`
of the same month both ceilings are defined and the ceiling of `d1` is strictly below the
ceiling of `d2`; on the first day of the month the ceiling is positive. -/
theorem ceiling_strictly_increasing (year : Int) (month d1 d2 : Nat) (hm1 : 1 ≤ month)
    (hm12 : month ≤ 12) (hd1 : 1 ≤ d1) (hlt : d1 < d2) (hd2 : d2 ≤ daysIn month year) :
    (∃ v1 v2, getTargetLogIngestionValueForCurrentDay ⟨year, month, d1⟩ = some v1 ∧
        getTargetLogIngestionValueForCurrentDay ⟨year, month, d2⟩ = some v2 ∧ v1 < v2) ∧
      (∃ v, getTargetLogIngestionValueForCurrentDay ⟨year, month, 1⟩ = some v ∧ 0 < v) := by
  obtain ⟨hL28, hL31⟩ := daysIn_bounds month year
  obtain ⟨hb1, hb2⟩ := maxLogIngestionPerMonth_bounds
  have hv1 : (⟨year, month, d1⟩ : Time).Valid :=
    ⟨hm1, hm12, hd1, by show d1 ≤ daysIn month year; omega⟩
  have hv2 : (⟨year, month, d2⟩ : Time).Valid := ⟨hm1, hm12, by show 1 ≤ d2; omega, hd2⟩
  have hvf : (⟨year, month, 1⟩ : Time).Valid :=
    ⟨hm1, hm12, le_refl _, by show 1 ≤ daysIn month year; omega⟩
  constructor
  · obtain ⟨v1, v2, e1, e2, _, hlt12⟩ := ceiling_increasing maxLogIngestionPerMonth d1 d2
      (daysIn month year) hb1 hb2 hd1 hlt hd2 hL31
    exact ⟨v1, v2, by rw [target_unfold _ hv1]; exact e1, by rw [target_unfold _ hv2]; exact e2,
      hlt12⟩
  · obtain ⟨v1, _, e1, _, hpos, _⟩ := ceiling_increasing maxLogIngestionPerMonth 1 2
      (daysIn month year) hb1 hb2 (le_refl _) (by decide) (by omega) hL31
    exact ⟨v1, by rw [target_unfold _ hvf]; exact e1, hpos⟩

/-- C7 (witness): 28 and 29 February 2024, the last two days of a leap-year February. -/
theorem ceiling_strictly_increasing_witness :
    (∃ v1 v2, getTargetLogIngestionValueForCurrentDay ⟨2024, 2, 28⟩ = some v1 ∧
        getTargetLogIngestionValueForCurrentDay ⟨2024, 2, 29⟩ = some v2 ∧ v1 < v2) ∧
      (∃ v, getTargetLogIngestionValueForCurrentDay ⟨2024, 2, 1⟩ = some v ∧ 0 < v) :=
  ceiling_strictly_increasing 2024 2 28 29 (by decide) (by decide) (by decide) (by decide)
    (by decide)

/-- C8 (counterexample): under the 50 GiB cap on 10 November 2026, the 10th of a 30-day
month, the ceiling is 17,895,697,066 and not 17,895,697,067; the quotient
`50 * 2 ^ 30 * 10 / 30` is 17,895,697,066 with remainder 20. -/
theorem tenth_of_thirty_counterexample :
    (⟨2026, 11, 10⟩ : Time).Valid ∧ daysIn 11 2026 = 30 ∧
      getTargetLogIngestionValueForCurrentDay ⟨2026, 11, 10⟩ = some 17895697066 ∧
      getTargetLogIngestionValueForCurrentDay ⟨2026, 11, 10⟩ ≠ some 17895697067 ∧
      50 * 2 ^ 30 * 10 / 30 = 17895697066 ∧ 50 * 2 ^ 30 * 10 % 30 = 20 := by
  set_option maxRecDepth 10000 in decide

/-- C8 (amended): with the cap of the program, 50 GiB or `50 * 2 ^ 30` bytes, on the 10th of
a 30-day month the ceiling is the truncated quotient `50 * 2 ^ 30 * 10 / 30`, which is
17,895,697,066 bytes. -/
theorem tenth_of_thirty_ceiling (now : Time) (hv : now.Valid) (hd : now.Day = 10)
    (hL : daysIn now.Month now.Year = 30) :
    maxLogIngestionPerMonth = 50 * 2 ^ 30 ∧
      getTargetLogIngestionValueForCurrentDay now = some (50 * 2 ^ 30 * 10 / 30) ∧
      50 * 2 ^ 30 * 10 / 30 = 17895697066 :=
  ⟨rfl, target_tenth_of_thirty now hv hd hL, by decide⟩

/-- C8 (witness): 10 April 2025. -/
theorem tenth_of_thirty_ceiling_witness :
    maxLogIngestionPerMonth = 50 * 2 ^ 30 ∧
      getTargetLogIngestionValueForCurrentDay ⟨2025, 4, 10⟩ = some (50 * 2 ^ 30 * 10 / 30) ∧
      50 * 2 ^ 30 * 10 / 30 = 17895697066 :=
  tenth_of_thirty_ceiling ⟨2025, 4, 10⟩ (by decide) (by decide) (by decide)

/-- What the loop of `main` prints for a project with a non-zero total, in whatever order the
map is ranged over: the warning exactly when the total is above the target, and a line for
every resource entry of the map. -/
theorem report_spec (service : MonitoringService) (targetBytes : Nat) (order : MapOrder)
    (project : Project) (logs : GoMap) (ha : project.LifecycleState = "ACTIVE")
    (hl : getLogUsageByResourceForProject project.ProjectId service = .ok logs)
    (h0 : GoMap.read logs "TOTAL" ≠ 0) :
    ∃ out, mainLoopBody service targetBytes order project = .ok out ∧
      (out.any Line.isWarning = true ↔ targetBytes < GoMap.read logs "TOTAL") ∧
      (Line.warning (GoMap.read logs "TOTAL") targetBytes ∈ out ↔
        targetBytes < GoMap.read logs "TOTAL") ∧
      Line.total (GoMap.read logs "TOTAL") ∈ out ∧
      (∀ k v, k ≠ "TOTAL" → (k, v) ∈ logs → Line.resource k v ∈ out) := by
  refine ⟨[Line.project project.ProjectId] ++ resourceLines (order.enumerate logs) ++
    [Line.total (GoMap.read logs "TOTAL")] ++
    (if GoMap.read logs "TOTAL" > targetBytes then
      [Line.warning (GoMap.read logs "TOTAL") targetBytes] else []), ?_, ?_, ?_, ?_, ?_⟩
  · simp [mainLoopBody, ha, hl, h0]
  · by_cases hgt : GoMap.read logs "TOTAL" > targetBytes
    · simp [hgt, Line.isWarning]
    · simp [hgt, Line.isWarning, resourceLines_no_warning]
  · have hno : ∀ a b, Line.warning a b ∉ resourceLines (order.enumerate logs) := by
      intro a b hmem
      have h := resourceLines_no_warning (order.enumerate logs)
      rw [List.any_eq_false] at h
      exact h _ hmem rfl
    by_cases hgt : GoMap.read logs "TOTAL" > targetBytes
    · simp [hgt]
    · simp [hgt, hno]
  · simp
  · intro k v hk hmem
    have hm : (k, v) ∈ order.enumerate logs := (order.perm logs).mem_iff.2 hmem
    have := mem_resourceLines _ k v hk hm
    simp [this]

/-- C10: for a reported project the loop of `main` prints the `[WARNING]` line exactly when
`logs["TOTAL"]` is strictly greater than the target, so not when they are equal; and for the
samples of the scenario, under the 50 GiB cap on the 10th of a 30-day month, the total is
19,000,000,000 bytes, above the ceiling, and the report holds the lines of `gce` and `gke`,
the total and the warning, in whatever order the map is ranged over. -/
theorem over_budget_iff (service : MonitoringService) (targetBytes : Nat) (order : MapOrder)
    (project : Project) (logs : GoMap) (ha : project.LifecycleState = "ACTIVE")
    (hl : getLogUsageByResourceForProject project.ProjectId service = .ok logs)
    (h0 : GoMap.read logs "TOTAL" ≠ 0) :
    (∃ out, mainLoopBody service targetBytes order project = .ok out ∧
        (out.any Line.isWarning = true ↔ targetBytes < GoMap.read logs "TOTAL") ∧
        (GoMap.read logs "TOTAL" = targetBytes → out.any Line.isWarning = false)) ∧
      (∀ now : Time, now.Valid → now.Day = 10 → daysIn now.Month now.Year = 30 →
        ∃ ceiling scenarioLogs,
          getTargetLogIngestionValueForCurrentDay now = some ceiling ∧
          getLogUsageByResourceForProject "p1" scenarioService = .ok scenarioLogs ∧
          GoMap.lookup scenarioLogs "gce" = some 10000000000 ∧
          GoMap.lookup scenarioLogs "gke" = some 9000000000 ∧
          GoMap.read scenarioLogs "TOTAL" = 19000000000 ∧
          ceiling < 19000000000 ∧
          ∃ out, mainLoopBody scenarioService ceiling order ⟨"p1", "ACTIVE"⟩ = .ok out ∧
            out.any Line.isWarning = true ∧
            Line.warning 19000000000 ceiling ∈ out ∧
            Line.total 19000000000 ∈ out ∧
            Line.resource "gce" 10000000000 ∈ out ∧
            Line.resource "gke" 9000000000 ∈ out) := by
  refine ⟨?_, ?_⟩
  · obtain ⟨out, ho, hw, _⟩ := report_spec service targetBytes order project logs ha hl h0
    refine ⟨out, ho, hw, fun heq => ?_⟩
    cases hb : out.any Line.isWarning with
    | false => rfl
    | true =>
      have := hw.1 hb
      omega
  · intro now hv hd hL
    have hs : getLogUsageByResourceForProject "p1" scenarioService =
        .ok [("gce", 10000000000), ("gke", 9000000000), ("TOTAL", 19000000000)] := by decide
    obtain ⟨out, ho, hw, hw2, ht, hr⟩ := report_spec scenarioService 17895697066 order
      ⟨"p1", "ACTIVE"⟩ _ rfl hs (by decide)
    have hread : GoMap.read [("gce", 10000000000), ("gke", 9000000000),
        ("TOTAL", 19000000000)] "TOTAL" = 19000000000 := by decide
    rw [hread] at hw hw2 ht
    exact ⟨17895697066, _, target_tenth_of_thirty now hv hd hL, hs, by decide, by decide, hread,
      by decide, out, ho, hw.2 (by decide), hw2.2 (by decide), ht,
      hr "gce" _ (by decide) (by decide), hr "gke" _ (by decide) (by decide)⟩

/-- C10 (witness): the project `p1` of the scenario against the ceiling 17,895,697,066, with
the map ranged over in reverse. -/
theorem over_budget_iff_witness :
    (∃ out, mainLoopBody scenarioService 17895697066 MapOrder.reversed ⟨"p1", "ACTIVE"⟩ =
          .ok out ∧
        (out.any Line.isWarning = true ↔
          17895697066 < GoMap.read [("gce", 10000000000), ("gke", 9000000000),
            ("TOTAL", 19000000000)] "TOTAL") ∧
        (GoMap.read [("gce", 10000000000), ("gke", 9000000000), ("TOTAL", 19000000000)] "TOTAL"
            = 17895697066 → out.any Line.isWarning = false)) ∧
      (∀ now : Time, now.Valid → now.Day = 10 → daysIn now.Month now.Year = 30 →
        ∃ ceiling scenarioLogs,
          getTargetLogIngestionValueForCurrentDay now = some ceiling ∧
          getLogUsageByResourceForProject "p1" scenarioService = .ok scenarioLogs ∧
          GoMap.lookup scenarioLogs "gce" = some 10000000000 ∧
          GoMap.lookup scenarioLogs "gke" = some 9000000000 ∧
          GoMap.read scenarioLogs "TOTAL" = 19000000000 ∧
          ceiling < 19000000000 ∧
          ∃ out, mainLoopBody scenarioService ceiling MapOrder.reversed ⟨"p1", "ACTIVE"⟩ =
              .ok out ∧
            out.any Line.isWarning = true ∧
            Line.warning 19000000000 ceiling ∈ out ∧
            Line.total 19000000000 ∈ out ∧
            Line.resource "gce" 10000000000 ∈ out ∧
            Line.resource "gke" 9000000000 ∈ out) :=
  over_budget_iff scenarioService 17895697066 MapOrder.reversed ⟨"p1", "ACTIVE"⟩ _ rfl
    (by decide) (by decide)

end LogUsage
